import Mathlib

/-!
Verification of the firecrawl python-sdk v2 HTTP transport layer
(`firecrawl/v2/utils/http_client.py` and `http_client_async.py`).

The development shallowly embeds the two clients.  The clients lean on
CPython's `urllib.parse`; the relevant stdlib functions (`urlsplit`,
`urlparse`, `urlunsplit`, `urlunparse`, `urljoin`, the `hostname`
accessor) are modelled here following the CPython implementation,
including its input scrubbing (left-strip of C0 controls and spaces,
removal of tab/CR/LF), over ASCII strings (the stdlib's non-ASCII NFKC
netloc check and full IP-literal validation are approximated).
-/

namespace Firecrawl

/-! ### Small string helpers (Python string primitives) -/

/-- Python whitespace characters stripped by `str.strip()`. -/
def pyWhitespace (c : Char) : Bool :=
  c = ' ' || c = '\t' || c = '\n' || c = '\r' || c = '\x0b' || c = '\x0c'

/-- Model of Python `str.strip()` (no argument): removes leading and
trailing whitespace. -/
def pyStrip (s : String) : String :=
  String.mk (((s.data.dropWhile pyWhitespace).reverse.dropWhile pyWhitespace).reverse)

/-- Model of Python `str.rstrip(".")`: removes every trailing dot. -/
def rstripDots (s : String) : String :=
  String.mk ((s.data.reverse.dropWhile (· = '.')).reverse)

/-- ASCII lower-casing, as Python `str.lower()` acts on ASCII input. -/
def lowerStr (s : String) : String :=
  String.mk (s.data.map Char.toLower)

/-- First character test: `s[:1] == c` in Python. -/
def firstIs (s : String) (c : Char) : Bool :=
  s.data.head? = some c

/-- Test for the Python check `s[:2] == "//"`. -/
def firstTwoSlash (s : String) : Bool :=
  match s.data with
  | '/' :: '/' :: _ => true
  | _ => false

/-- Model of Python `s.endswith("/")`. -/
def endsWithSlash (s : String) : Bool :=
  s.data.getLast? = some '/'

/-- Split a character list at the first occurrence of `c`; the
delimiter is dropped.  When `c` does not occur the second component is
empty, matching Python's `str.split(c, 1)` followed by an `in` check. -/
def splitFirst (l : List Char) (c : Char) : List Char × List Char :=
  let p := l.span (· ≠ c)
  (p.1, p.2.tail)

/-- Model of Python `str.split(c)` for a single-character separator:
splitting an empty string yields `[""]`, and every separator occurrence
produces a boundary. -/
def pySplitAux (c : Char) : List Char → List Char → List String
  | [], acc => [String.mk acc.reverse]
  | x :: xs, acc =>
    if x = c then String.mk acc.reverse :: pySplitAux c xs []
    else pySplitAux c xs (x :: acc)

/-- Model of Python `str.split(c)`. -/
def pySplit (s : String) (c : Char) : List String :=
  pySplitAux c s.data []

/-- Model of Python `sep.join(parts)`. -/
def pyJoin (sep : String) : List String → String
  | [] => ""
  | [x] => x
  | x :: xs => x ++ sep ++ pyJoin sep xs

/-- Model of Python `s.startswith(pre)` for a literal prefix. -/
def startsWithLit (s pre : String) : Bool :=
  pre.data.isPrefixOf s.data

/-! ### Model of CPython `urllib.parse` -/

/-- Characters permitted in a URL scheme after the leading letter
(CPython `scheme_chars`). -/
def isSchemeChar (c : Char) : Bool :=
  c.isAlphanum || c = '+' || c = '-' || c = '.'

/-- Scheme detection step of CPython `urlsplit`: the text before the
first `:` must be nonempty, start with an ASCII letter and consist of
scheme characters; otherwise no scheme is recognised. -/
def detectScheme (l : List Char) : Option (List Char × List Char) :=
  let p := l.span (· ≠ ':')
  match p.2 with
  | [] => none
  | _ :: after =>
    match p.1 with
    | [] => none
    | c0 :: _ => if c0.isAlpha && p.1.all isSchemeChar then some (p.1, after) else none

/-- Result of `urlsplit`: the five components of a URL. -/
structure SplitResult where
  scheme : String
  netloc : String
  path : String
  query : String
  fragment : String
deriving Repr, DecidableEq

/-- Characters that terminate the network location (CPython
`_splitnetloc` looks for the first of `/?#`). -/
def netlocStop (c : Char) : Bool :=
  c = '/' || c = '?' || c = '#'

/-- Hex digit test used by the bracketed-host validation. -/
def isHexChar (c : Char) : Bool :=
  c.isDigit || ('a' ≤ c && c ≤ 'f') || ('A' ≤ c && c ≤ 'F')

/-- Approximate model of CPython `_check_bracketed_host`: an
IPvFuture literal `v<hex>+.<rest>` or an IPv6-looking literal (hex
digits, colons and dots, containing a colon).  Only bracketed netlocs
reach this check; the claims under verification never exercise it with
well-bracketed input, while a `[` without `]` is rejected exactly as in
the stdlib before this check runs. -/
def check_bracketed_host (h : List Char) : Bool :=
  match h with
  | 'v' :: rest =>
    let p := rest.span isHexChar
    decide (p.1 ≠ []) &&
      (match p.2 with
       | '.' :: tl => decide (tl ≠ [])
       | _ => false)
  | _ =>
    decide (h ≠ []) && h.all (fun c => isHexChar c || c = ':' || c = '.') && h.any (· = ':')

/-- Content between the first `[` and the following `]` of a netloc. -/
def bracketedOf (l : List Char) : List Char :=
  (((l.span (· ≠ '[')).2.tail).span (· ≠ ']')).1

/-- Shared tail of `urlsplit` once the scheme has been removed:
splits off the netloc (after `//`), validates brackets, then splits
fragment and query. -/
def urlsplitRest (scheme : String) (rest : List Char) : Except String SplitResult :=
  let nl : List Char × List Char :=
    match rest with
    | '/' :: '/' :: r3 => ((r3.span (fun c => !netlocStop c)).1, (r3.span (fun c => !netlocStop c)).2)
    | _ => ([], rest)
  let netloc := nl.1
  if (netloc.any (· = '[') && !netloc.any (· = ']')) ||
     (netloc.any (· = ']') && !netloc.any (· = '[')) then
    .error "Invalid IPv6 URL"
  else if netloc.any (· = '[') && !check_bracketed_host (bracketedOf netloc) then
    .error "invalid bracketed host"
  else
    let f := splitFirst nl.2 '#'
    let q := splitFirst f.1 '?'
    .ok ⟨scheme, String.mk netloc, String.mk q.1, String.mk q.2, String.mk f.2⟩

/-- C0 control characters and space, stripped from the left of the URL
by `urlsplit` (CPython `_WHATWG_C0_CONTROL_OR_SPACE`). -/
def c0OrSpace (c : Char) : Bool :=
  c.val ≤ 32

/-- Characters not scrubbed away inside a URL by `urlsplit`
(everything except tab, carriage return, newline — CPython
`_UNSAFE_URL_BYTES_TO_REMOVE`). -/
def nfChar (c : Char) : Bool :=
  !(c = '\t' || c = '\r' || c = '\n')

/-- Input scrubbing performed by `urlsplit`: left-strip C0 controls and
spaces, then remove every tab, carriage return and newline. -/
def scrubUrl (l : List Char) : List Char :=
  (l.dropWhile c0OrSpace).filter nfChar

/-- Model of CPython `urlsplit` (ASCII input, `allow_fragments=True`).
Parse failures (invalid bracketed hosts) are returned as `.error`,
modelling the `ValueError` the stdlib raises. -/
def urlsplitE (url : String) : Except String SplitResult :=
  match detectScheme (scrubUrl url.data) with
  | some (s, r) => urlsplitRest (lowerStr (String.mk s)) r
  | none => urlsplitRest "" (scrubUrl url.data)

/-- Result of `urlparse`: `urlsplit` plus the `params` component. -/
structure ParseResult where
  scheme : String
  netloc : String
  path : String
  params : String
  query : String
  fragment : String
deriving Repr, DecidableEq

/-- Model of CPython `_splitparams`: split the path at the first `;`
occurring in its final `/`-segment. -/
def py_splitparams (p : List Char) : List Char × List Char :=
  if p.any (· = '/') then
    let afterSlash := (p.reverse.span (· ≠ '/')).1.reverse
    if afterSlash.any (· = ';') then
      let s := splitFirst afterSlash ';'
      (p.take (p.length - afterSlash.length) ++ s.1, s.2)
    else (p, [])
  else splitFirst p ';'

/-- Schemes whose path carries `;params` (CPython `uses_params`). -/
def uses_params : List String :=
  ["", "ftp", "hdl", "prospero", "http", "imap", "https", "shttp",
   "rtsp", "rtsps", "rtspu", "sip", "sips", "mms", "sftp", "tel"]

/-- Model of CPython `urlparse`: `urlsplit`, then params split off the
path when the scheme uses params and the path contains a `;`. -/
def py_urlparseE (url : String) : Except String ParseResult :=
  (urlsplitE url).map fun r =>
    if uses_params.contains r.scheme && r.path.data.any (· = ';') then
      let s := py_splitparams r.path.data
      ⟨r.scheme, r.netloc, String.mk s.1, String.mk s.2, r.query, r.fragment⟩
    else ⟨r.scheme, r.netloc, r.path, "", r.query, r.fragment⟩

/-- Model of CPython `urlunsplit`. -/
def urlunsplit (r : SplitResult) : String :=
  let url := r.path
  let url :=
    if r.netloc ≠ "" || (url ≠ "" && firstTwoSlash url) then
      "//" ++ r.netloc ++ (if url ≠ "" && !(firstIs url '/') then "/" ++ url else url)
    else url
  let url := if r.scheme ≠ "" then r.scheme ++ ":" ++ url else url
  let url := if r.query ≠ "" then url ++ "?" ++ r.query else url
  if r.fragment ≠ "" then url ++ "#" ++ r.fragment else url

/-- Model of CPython `urlunparse`. -/
def urlunparse (scheme netloc path params query fragment : String) : String :=
  urlunsplit ⟨scheme, netloc, (if params ≠ "" then path ++ ";" ++ params else path), query, fragment⟩

/-- Model of the `hostname` accessor of a parse result: the part of
the netloc after the last `@`; for a bracketed host the content of the
brackets, otherwise the part before the first `:`; lower-cased.  The
stdlib's `None` is represented by the empty string, matching how the
client code immediately applies `or ""`. -/
def py_hostname (netloc : String) : String :=
  let hostinfo := ((netloc.data.reverse.span (· ≠ '@')).1).reverse
  let host :=
    if hostinfo.any (· = '[') then bracketedOf hostinfo
    else (hostinfo.span (· ≠ ':')).1
  let z := host.span (· ≠ '%')
  lowerStr (String.mk z.1) ++ String.mk z.2

/-- Schemes accepted for relative resolution (CPython `uses_relative`). -/
def uses_relative : List String :=
  ["", "ftp", "http", "gopher", "nntp", "imap", "wais", "file", "https",
   "shttp", "mms", "prospero", "rtsp", "rtspu", "sftp", "svn", "svn+ssh", "ws", "wss"]

/-- Schemes carrying a network location (CPython `uses_netloc`). -/
def uses_netloc : List String :=
  ["", "ftp", "http", "gopher", "nntp", "telnet", "imap", "wais", "file",
   "mms", "https", "shttp", "snews", "prospero", "rtsp", "rtspu", "rsync",
   "svn", "svn+ssh", "sftp", "nfs", "git", "git+ssh", "ws", "wss"]

/-- Segment filter used by `urljoin`: drop empty interior segments,
keeping the first and last (`segments[1:-1] = filter(None, segments[1:-1])`). -/
def filterMiddle (l : List String) : List String :=
  match l with
  | [] => []
  | [a] => [a]
  | a :: rest => a :: ((rest.dropLast.filter (fun s => s ≠ "")) ++ [rest.getLastD ""])

/-- Dot-segment resolution loop of `urljoin`. -/
def resolveSegments (segments : List String) : List String :=
  segments.foldl
    (fun acc seg =>
      if seg = ".." then acc.dropLast
      else if seg = "." then acc
      else acc ++ [seg]) []

/-- Model of CPython `urljoin` (fragments allowed).  Parse errors from
the two `urlparse` calls propagate as `.error`. -/
def urljoinE (base url : String) : Except String String := do
  if base = "" then return url
  if url = "" then return base
  let b ← py_urlparseE base
  let r0 ← py_urlparseE url
  let r := if r0.scheme = "" then { r0 with scheme := b.scheme } else r0
  if r.scheme ≠ b.scheme || !(uses_relative.contains r.scheme) then
    return url
  let rnetloc :=
    if uses_netloc.contains r.scheme then
      if r.netloc ≠ "" then r.netloc else b.netloc
    else r.netloc
  if uses_netloc.contains r.scheme && r.netloc ≠ "" then
    return urlunparse r.scheme r.netloc r.path r.params r.query r.fragment
  if r.path = "" && r.params = "" then
    let q := if r.query = "" then b.query else r.query
    return urlunparse r.scheme rnetloc b.path b.params q r.fragment
  let baseParts0 := pySplit b.path '/'
  let baseParts := if baseParts0.getLast? ≠ some "" then baseParts0.dropLast else baseParts0
  let segments :=
    if firstIs r.path '/' then pySplit r.path '/'
    else filterMiddle (baseParts ++ pySplit r.path '/')
  let resolved := resolveSegments segments
  let resolved :=
    if segments.getLast? = some "." || segments.getLast? = some ".." then resolved ++ [""]
    else resolved
  let joined := pyJoin "/" resolved
  return urlunparse r.scheme rnetloc (if joined = "" then "/" else joined) r.params r.query r.fragment

/-! ### Data shared by both clients -/

deriving instance DecidableEq for Except

/-- Values stored in a request body mapping (JSON-able caller data).
The `origin` field the SDK injects is a string; other caller values are
opaque. -/
inductive PyVal where
  | str (s : String)
  | opaque_val (n : Nat)
deriving Repr, DecidableEq

/-- Python dicts are modelled as association lists with unique keys in
insertion order; lookup returns the first (only) binding. -/
def lookup {α : Type} : List (String × α) → String → Option α
  | [], _ => none
  | kv :: rest, k => if kv.1 = k then some kv.2 else lookup rest k

/-- Python `d[k] = v`: replace the value of an existing key in place,
otherwise append the new binding. -/
def setKey {α : Type} : List (String × α) → String → α → List (String × α)
  | [], k, v => [(k, v)]
  | kv :: rest, k, v => if kv.1 = k then (k, v) :: rest else kv :: setKey rest k v

/-- Python `{**a, **b}`: start from `a` and assign every binding of `b`
in order, so `b`'s values win for shared keys. -/
def dictMerge {α : Type} (a b : List (String × α)) : List (String × α) :=
  b.foldl (fun d kv => setKey d kv.1 kv.2) a

/-- Outcome of one transport call (`requests.post/get/delete`): a
response with a status code, or a raised `RequestException`
distinguished by an opaque tag. -/
inductive TransportOutcome where
  | response (status : Nat)
  | fault (e : Nat)
deriving Repr, DecidableEq

/-- What a blocking verb ultimately does: return a response, re-raise
the transport fault of the final attempt, or raise the generic
`Exception("Unexpected error ...")` after an empty attempt loop. -/
inductive ReqOutcome where
  | returned (status : Nat)
  | raised (e : Nat)
  | raisedGeneric
deriving Repr, DecidableEq

/-- Observable behaviour of one execution of the retry loop: the final
outcome, how many transport calls were issued, and the backoff sleeps
performed (in order, each `backoff_factor * 2 ^ attempt`). -/
structure RunResult where
  outcome : ReqOutcome
  calls : Nat
  sleeps : List ℚ
deriving Repr, DecidableEq

/-- The retry loop shared verbatim by `HttpClient.post/get/delete`:
`attempt` is the current index, `remaining` the number of loop
iterations left (including the current one).  A 502 response with
attempts remaining sleeps and retries; any other response returns; a
fault re-raises on the last attempt and otherwise sleeps and retries.
An empty range falls through to `raise last_exception or Exception(...)`
with `last_exception` still `None`. -/
def retry_loop (transport : Nat → TransportOutcome) (backoff_factor : ℚ) :
    Nat → Nat → RunResult
  | _, 0 => ⟨.raisedGeneric, 0, []⟩
  | attempt, remaining + 1 =>
    match transport attempt with
    | .response status =>
      if status = 502 ∧ remaining ≠ 0 then
        let r := retry_loop transport backoff_factor (attempt + 1) remaining
        ⟨r.outcome, r.calls + 1, backoff_factor * 2 ^ attempt :: r.sleeps⟩
      else ⟨.returned status, 1, []⟩
    | .fault e =>
      if remaining = 0 then ⟨.raised e, 1, []⟩
      else
        let r := retry_loop transport backoff_factor (attempt + 1) remaining
        ⟨r.outcome, r.calls + 1, backoff_factor * 2 ^ attempt :: r.sleeps⟩

/-- Run the attempt loop `for attempt in range(retries)`; a
non-positive `retries` yields an empty range. -/
def run_with_retries (transport : Nat → TransportOutcome) (backoff_factor : ℚ)
    (retries : Int) : RunResult :=
  retry_loop transport backoff_factor 0 retries.toNat

/-! ### The blocking client (`http_client.py`) -/

/-- `HttpClient` configuration.  `version` models the module-level
`version = get_version()`; `get_version` is not part of the sources
under verification and, per the spec (§6, §9), is an opaque string
resolved once and injected. -/
structure HttpClient where
  api_key : Option String
  api_url : String
  version : String

namespace HttpClient

/-- Model of `HttpClient._build_url`: an endpoint parsing with a
netloc keeps only its path (default `/`) and query, re-emitted with the
base scheme (default `https`) and netloc; a residual `//`-prefixed
endpoint is reparsed with an `https:` prefix and treated the same;
anything else is joined onto the base URL normalised to end in `/`.
Parse `ValueError`s propagate as `.error`. -/
def build_url (c : HttpClient) (endpoint : String) : Except String String := do
  let base ← py_urlparseE c.api_url
  let ep ← py_urlparseE endpoint
  if ep.netloc ≠ "" then
    let path := if ep.path = "" then "/" else ep.path
    if py_hostname ep.netloc ≠ py_hostname base.netloc then
      return urlunparse (if base.scheme = "" then "https" else base.scheme) base.netloc path "" ep.query ""
    return urlunparse (if base.scheme = "" then "https" else base.scheme) base.netloc path "" ep.query ""
  let base_str := if endsWithSlash c.api_url then c.api_url else c.api_url ++ "/"
  if firstTwoSlash endpoint then
    let ep2 ← py_urlparseE ("https:" ++ endpoint)
    let path := if ep2.path = "" then "/" else ep2.path
    return urlunparse (if base.scheme = "" then "https" else base.scheme) base.netloc path "" ep2.query ""
  urljoinE base_str endpoint

/-- Model of `HttpClient._is_same_host`: endpoints without a literal
`http://`/`https://` prefix count as same-host; otherwise both
hostnames are extracted, stripped of every trailing dot, lower-cased
and compared; a parse failure yields `false`. -/
def is_same_host (c : HttpClient) (endpoint : String) : Bool :=
  if !(startsWithLit endpoint "http://" || startsWithLit endpoint "https://") then true
  else
    match py_urlparseE endpoint, py_urlparseE c.api_url with
    | .ok t, .ok b =>
      lowerStr (rstripDots (py_hostname t.netloc)) = lowerStr (rstripDots (py_hostname b.netloc))
    | _, _ => false

/-- Model of `HttpClient._prepare_headers`: Content-Type always;
Authorization iff the key is truthy, non-blank after strip and the
endpoint is same-host; idempotency header iff a truthy key is given. -/
def prepare_headers (c : HttpClient) (endpoint : String)
    (idempotency_key : Option String) : List (String × String) :=
  let headers := [("Content-Type", "application/json")]
  let headers :=
    match c.api_key with
    | some k =>
      if k ≠ "" ∧ pyStrip k ≠ "" ∧ c.is_same_host endpoint then
        setKey headers "Authorization" ("Bearer " ++ pyStrip k)
      else headers
    | none => headers
  match idempotency_key with
  | some ik => if ik ≠ "" then setKey headers "x-idempotency-key" ik else headers
  | none => headers

/-- Observable effect of `HttpClient.post`: the headers and body given
to every transport attempt, the caller's dict after the call (the same
object, mutated in place), the URL-building outcome, and the retry-loop
run (absent when `_build_url` raised before the loop). -/
structure PostResult where
  sentHeaders : List (String × String)
  sentBody : List (String × PyVal)
  callerBody : List (String × PyVal)
  urlResult : Except String String
  run : Option RunResult
deriving Repr, DecidableEq

/-- Model of `HttpClient.post`: headers built unless supplied, the
caller's body mutated in place with the `origin` field, URL built, then
the retry loop. -/
def post (c : HttpClient) (endpoint : String) (data : List (String × PyVal))
    (headers : Option (List (String × String)))
    (transport : Nat → TransportOutcome) (retries : Int) (backoff_factor : ℚ) :
    PostResult :=
  let hdrs := match headers with
    | none => c.prepare_headers endpoint none
    | some h => h
  let data2 := setKey data "origin" (.str ("python-sdk@" ++ c.version))
  match c.build_url endpoint with
  | .error e => ⟨hdrs, data2, data2, .error e, none⟩
  | .ok u => ⟨hdrs, data2, data2, .ok u, some (run_with_retries transport backoff_factor retries)⟩

/-- Observable effect of `HttpClient.get` / `HttpClient.delete` (the
two bodies are identical): no request body is ever passed to the
transport. -/
structure NoBodyResult where
  sentHeaders : List (String × String)
  sentBody : Option (List (String × PyVal))
  urlResult : Except String String
  run : Option RunResult
deriving Repr, DecidableEq

/-- Model of `HttpClient.get`. -/
def get (c : HttpClient) (endpoint : String)
    (headers : Option (List (String × String)))
    (transport : Nat → TransportOutcome) (retries : Int) (backoff_factor : ℚ) :
    NoBodyResult :=
  let hdrs := match headers with
    | none => c.prepare_headers endpoint none
    | some h => h
  match c.build_url endpoint with
  | .error e => ⟨hdrs, none, .error e, none⟩
  | .ok u => ⟨hdrs, none, .ok u, some (run_with_retries transport backoff_factor retries)⟩

/-- Model of `HttpClient.delete`, line for line the same as `get` with
`requests.delete` in place of `requests.get`. -/
def delete (c : HttpClient) (endpoint : String)
    (headers : Option (List (String × String)))
    (transport : Nat → TransportOutcome) (retries : Int) (backoff_factor : ℚ) :
    NoBodyResult :=
  let hdrs := match headers with
    | none => c.prepare_headers endpoint none
    | some h => h
  match c.build_url endpoint with
  | .error e => ⟨hdrs, none, .error e, none⟩
  | .ok u => ⟨hdrs, none, .ok u, some (run_with_retries transport backoff_factor retries)⟩

end HttpClient

/-! ### The suspending client (`http_client_async.py`) -/

/-- `AsyncHttpClient` configuration; `version` as for `HttpClient`. -/
structure AsyncHttpClient where
  api_key : Option String
  api_url : String
  version : String

namespace AsyncHttpClient

/-- Model of `httpx.AsyncClient` request-URL merging with a configured
`base_url`: a URL carrying a scheme or a host is used as given; a
relative one is appended to the base URL's path (normalised to end in
`/`), keeping the base scheme and authority. -/
def httpx_merge_url (apiUrl endpoint : String) : String :=
  match urlsplitE endpoint with
  | .error _ => endpoint
  | .ok ep =>
    if ep.scheme = "" ∧ py_hostname ep.netloc = "" then
      match urlsplitE apiUrl with
      | .error _ => endpoint
      | .ok b =>
        let bpath := if endsWithSlash b.path then b.path else b.path ++ "/"
        let mpath := bpath ++ String.mk (ep.path.data.dropWhile (· = '/'))
        urlunsplit ⟨b.scheme, b.netloc, mpath, ep.query, ""⟩
    else endpoint

/-- Model of `AsyncHttpClient._is_same_host`, identical to the
blocking variant's check. -/
def is_same_host (c : AsyncHttpClient) (endpoint : String) : Bool :=
  if !(startsWithLit endpoint "http://" || startsWithLit endpoint "https://") then true
  else
    match py_urlparseE endpoint, py_urlparseE c.api_url with
    | .ok t, .ok b =>
      lowerStr (rstripDots (py_hostname t.netloc)) = lowerStr (rstripDots (py_hostname b.netloc))
    | _, _ => false

/-- Model of `AsyncHttpClient._headers`: starts empty (Content-Type
lives on the shared `httpx` client), Authorization under the same gate
as the blocking variant, idempotency header iff a truthy key is given. -/
def headers_fn (c : AsyncHttpClient) (endpoint : String)
    (idempotency_key : Option String) : List (String × String) :=
  let headers : List (String × String) := []
  let headers :=
    match c.api_key with
    | some k =>
      if k ≠ "" ∧ pyStrip k ≠ "" ∧ c.is_same_host endpoint then
        setKey headers "Authorization" ("Bearer " ++ pyStrip k)
      else headers
    | none => headers
  match idempotency_key with
  | some ik => if ik ≠ "" then setKey headers "x-idempotency-key" ik else headers
  | none => headers

/-- Observable effect of `AsyncHttpClient.post`: the URL the transport
dispatches after httpx base-URL merging, the headers passed to the
request (built headers updated by any caller-supplied ones), the JSON
payload sent, and the caller's dict after the call (`dict(data)` copies,
so it is unchanged). -/
structure AsyncPostResult where
  url : String
  sentHeaders : List (String × String)
  sentBody : List (String × PyVal)
  callerBody : List (String × PyVal)
deriving Repr, DecidableEq

/-- Model of `AsyncHttpClient.post`. -/
def post (c : AsyncHttpClient) (endpoint : String) (data : List (String × PyVal))
    (headers : Option (List (String × String))) : AsyncPostResult :=
  let payload := setKey data "origin" (.str ("python-sdk@" ++ c.version))
  ⟨httpx_merge_url c.api_url endpoint,
   dictMerge (c.headers_fn endpoint none) (headers.getD []),
   payload, data⟩

/-- Observable effect of `AsyncHttpClient.get` / `delete`: dispatched
URL and request headers; no body is ever sent. -/
structure AsyncNoBodyResult where
  url : String
  sentHeaders : List (String × String)
  sentBody : Option (List (String × PyVal))
deriving Repr, DecidableEq

/-- Model of `AsyncHttpClient.get`. -/
def get (c : AsyncHttpClient) (endpoint : String)
    (headers : Option (List (String × String))) : AsyncNoBodyResult :=
  ⟨httpx_merge_url c.api_url endpoint,
   dictMerge (c.headers_fn endpoint none) (headers.getD []), none⟩

/-- Model of `AsyncHttpClient.delete`, identical to `get` with the
`DELETE` verb. -/
def delete (c : AsyncHttpClient) (endpoint : String)
    (headers : Option (List (String × String))) : AsyncNoBodyResult :=
  ⟨httpx_merge_url c.api_url endpoint,
   dictMerge (c.headers_fn endpoint none) (headers.getD []), none⟩

end AsyncHttpClient

/-! ### Spec-side definitions (for refinement statements) -/

/-- Same-origin rule as the amended spec words it: an endpoint without
a literal lowercase `http://`/`https://` prefix is same-origin by
construction; otherwise only the hostnames are compared (no scheme, no
port), each stripped of all trailing dots and lower-cased, and a parse
failure on either URL means different origin. -/
def sameOriginSpec (baseUrl endpoint : String) : Bool :=
  if !(startsWithLit endpoint "http://" || startsWithLit endpoint "https://") then true
  else
    match py_urlparseE endpoint, py_urlparseE baseUrl with
    | .ok t, .ok b =>
      lowerStr (rstripDots (py_hostname t.netloc)) = lowerStr (rstripDots (py_hostname b.netloc))
    | _, _ => false

/-- Host normalisation exactly as the original claims C2/C3 state it:
lower-case and strip exactly one trailing dot. -/
def stripOneDot (h : String) : String :=
  if h.data.getLast? = some '.' then String.mk h.data.dropLast else h

/-- Characters we allow in a well-formed configured base-URL netloc:
letters, digits, dots, dashes, underscores, colons (ports) and `@`
(userinfo); in particular no `/?#[]` and no control characters. -/
def goodNetlocChar (c : Char) : Bool :=
  c.isAlphanum || c = '.' || c = '-' || c = ':' || c = '_' || c = '@'

/-- Characters of a plain DNS-style hostname: letters, digits, dots,
dashes and underscores — no port separator, userinfo marker or
brackets. -/
def hostChar (c : Char) : Bool :=
  c.isAlphanum || c = '.' || c = '-' || c = '_'

/-- A URL tail that cannot interfere with the authority in front of
it: empty, or starting with `/`, `?` or `#`. -/
def tailOk (t : String) : Prop :=
  t = "" ∨ t.data.head? = some '/' ∨ t.data.head? = some '?' ∨ t.data.head? = some '#'

/-- The dispatched URL carries exactly the given scheme and authority:
it is `scheme ++ "://" ++ netloc` followed by a tail that is empty or
path/query/fragment material. -/
def forcedToBase (scheme netloc u : String) : Prop :=
  ∃ tail, u = scheme ++ "://" ++ netloc ++ tail ∧ tailOk tail

/-! ### Helper lemmas on dictionaries -/

theorem lookup_setKey_self {α : Type} (d : List (String × α)) (k : String) (v : α) :
    lookup (setKey d k v) k = some v := by
  induction d with
  | nil => simp [setKey, lookup]
  | cons kv rest ih =>
    by_cases h : kv.1 = k
    · simp [setKey, h, lookup]
    · simp [setKey, h, lookup, ih]

theorem lookup_setKey_ne {α : Type} (d : List (String × α)) (k k' : String) (v : α)
    (h : k' ≠ k) : lookup (setKey d k v) k' = lookup d k' := by
  induction d with
  | nil => simp [setKey, lookup, Ne.symm h]
  | cons kv rest ih =>
    by_cases hk : kv.1 = k
    · subst hk
      simp [setKey, lookup, Ne.symm h]
    · by_cases hk' : kv.1 = k'
      · simp [setKey, hk, lookup, hk', h]
      · simp [setKey, hk, lookup, hk', ih]

theorem lookup_none_of_not_mem_keys {α : Type} (d : List (String × α)) (k : String)
    (h : k ∉ d.map Prod.fst) : lookup d k = none := by
  induction d with
  | nil => rfl
  | cons kv rest ih =>
    simp only [List.map_cons, List.mem_cons] at h
    push_neg at h
    simp [lookup, Ne.symm h.1, ih h.2]

theorem lookup_dictMerge_of_none {α : Type} (a b : List (String × α)) (k : String)
    (h : lookup b k = none) : lookup (dictMerge a b) k = lookup a k := by
  induction b generalizing a with
  | nil => rfl
  | cons kv rest ih =>
    simp only [lookup] at h
    by_cases hk : kv.1 = k
    · simp [hk] at h
    · simp only [hk, if_false] at h
      show lookup (dictMerge (setKey a kv.1 kv.2) rest) k = _
      rw [ih (setKey a kv.1 kv.2) h, lookup_setKey_ne _ _ _ _ (fun he => hk he.symm)]

theorem lookup_dictMerge_of_some {α : Type} (a b : List (String × α)) (k : String) (v : α)
    (hnd : (b.map Prod.fst).Nodup) (h : lookup b k = some v) :
    lookup (dictMerge a b) k = some v := by
  induction b generalizing a with
  | nil => simp [lookup] at h
  | cons kv rest ih =>
    simp only [List.map_cons, List.nodup_cons] at hnd
    by_cases hk : kv.1 = k
    · subst hk
      simp only [lookup, if_pos] at h
      have hrest : lookup rest kv.1 = none :=
        lookup_none_of_not_mem_keys rest kv.1 hnd.1
      show lookup (dictMerge (setKey a kv.1 kv.2) rest) kv.1 = some v
      rw [lookup_dictMerge_of_none _ _ _ hrest, lookup_setKey_self, h]
    · simp only [lookup, hk, if_false] at h
      exact ih (setKey a kv.1 kv.2) hnd.2 h

/-! ### Helper lemmas on the retry loop -/

theorem retry_loop_502_trace (tr : Nat → TransportOutcome) (bf : ℚ) :
    ∀ (k a rem s : Nat), k < rem →
      (∀ i, i < k → tr (a + i) = .response 502) →
      tr (a + k) = .response s →
      (s ≠ 502 ∨ k + 1 = rem) →
      retry_loop tr bf a rem =
        ⟨.returned s, k + 1, (List.range k).map (fun i => bf * 2 ^ (a + i))⟩ := by
  intro k
  induction k with
  | zero =>
    intro a rem s hlt _ htr hlast
    obtain ⟨rem', rfl⟩ : ∃ r, rem = r + 1 := ⟨rem - 1, by omega⟩
    simp only [Nat.add_zero] at htr
    simp only [retry_loop, htr]
    have : ¬(s = 502 ∧ rem' ≠ 0) := by
      rcases hlast with h | h
      · exact fun hc => h hc.1
      · exact fun hc => hc.2 (by omega)
    simp [this]
  | succ k ih =>
    intro a rem s hlt h502 htr hlast
    obtain ⟨rem', rfl⟩ : ∃ r, rem = r + 1 := ⟨rem - 1, by omega⟩
    have h0 : tr a = .response 502 := by
      have := h502 0 (Nat.succ_pos k)
      simpa using this
    simp only [retry_loop, h0]
    have hc : (True ∧ rem' ≠ 0) := ⟨trivial, by omega⟩
    rw [if_pos hc]
    have hrec := ih (a + 1) rem' s (by omega)
      (fun i hi => by
        have := h502 (i + 1) (by omega)
        simpa [Nat.add_assoc, Nat.add_comm 1 i] using this)
      (by
        have : a + 1 + k = a + (k + 1) := by omega
        rw [this]; exact htr)
      (by rcases hlast with h | h
          · exact Or.inl h
          · exact Or.inr (by omega))
    rw [hrec]
    refine congrArg₂ _ rfl ?_
    · show bf * 2 ^ a :: (List.range k).map (fun i => bf * 2 ^ (a + 1 + i)) =
        (List.range (k + 1)).map (fun i => bf * 2 ^ (a + i))
      rw [List.range_succ_eq_map, List.map_cons, List.map_map]
      refine congrArg₂ _ (by rw [Nat.add_zero]) ?_
      exact List.map_congr_left (fun i _ => by
        show bf * 2 ^ (a + 1 + i) = bf * 2 ^ (a + (i + 1))
        have h : a + 1 + i = a + (i + 1) := by omega
        rw [h])

theorem retry_loop_fault_trace (tr : Nat → TransportOutcome) (bf : ℚ) :
    ∀ (rem a : Nat) (efn : Nat → Nat), 0 < rem →
      (∀ i, i < rem → tr (a + i) = .fault (efn i)) →
      retry_loop tr bf a rem =
        ⟨.raised (efn (rem - 1)), rem, (List.range (rem - 1)).map (fun i => bf * 2 ^ (a + i))⟩ := by
  intro rem
  induction rem with
  | zero => intro a efn h; omega
  | succ rem' ih =>
    intro a efn _ hf
    have h0 : tr a = .fault (efn 0) := by simpa using hf 0 (Nat.succ_pos rem')
    by_cases hz : rem' = 0
    · subst hz
      simp [retry_loop, h0]
    · simp only [retry_loop, h0]
      rw [if_neg hz]
      have hrec := ih (a + 1) (fun i => efn (i + 1)) (by omega)
        (fun i hi => by
          have := hf (i + 1) (by omega)
          simpa [Nat.add_assoc, Nat.add_comm 1 i] using this)
      rw [hrec]
      show RunResult.mk (ReqOutcome.raised (efn (rem' - 1 + 1))) (rem' + 1)
          (bf * 2 ^ a :: (List.range (rem' - 1)).map (fun i => bf * 2 ^ (a + 1 + i))) =
        RunResult.mk (ReqOutcome.raised (efn (rem' + 1 - 1))) (rem' + 1)
          ((List.range (rem' + 1 - 1)).map (fun i => bf * 2 ^ (a + i)))
      congr 1
      · rw [show rem' - 1 + 1 = rem' + 1 - 1 by omega]
      · rw [show rem' + 1 - 1 = (rem' - 1) + 1 by omega,
          List.range_succ_eq_map, List.map_cons, List.map_map]
        refine congrArg₂ _ (by rw [Nat.add_zero]) ?_
        exact List.map_congr_left (fun i _ => by
          show bf * 2 ^ (a + 1 + i) = bf * 2 ^ (a + (i + 1))
          have h : a + 1 + i = a + (i + 1) := by omega
          rw [h])

/-! ### Parsing lemmas for the URL-forcing claim -/

theorem takeWhile_append_all {p : Char → Bool} {xs ys : List Char}
    (h : ∀ a ∈ xs, p a = true) : (xs ++ ys).takeWhile p = xs ++ ys.takeWhile p := by
  induction xs with
  | nil => rfl
  | cons a l ih =>
    simp [List.takeWhile_cons, h a (by simp), ih (fun x hx => h x (by simp [hx]))]

theorem dropWhile_append_all {p : Char → Bool} {xs ys : List Char}
    (h : ∀ a ∈ xs, p a = true) : (xs ++ ys).dropWhile p = ys.dropWhile p := by
  induction xs with
  | nil => rfl
  | cons a l ih =>
    simp [List.dropWhile_cons, h a (by simp), ih (fun x hx => h x (by simp [hx]))]

theorem goodNetlocChar_not_stop {c : Char} (h : goodNetlocChar c = true) :
    netlocStop c = false := by
  by_contra hc
  rw [Bool.not_eq_false] at hc
  simp only [netlocStop, Bool.or_eq_true, decide_eq_true_eq] at hc
  rcases hc with (rfl | rfl) | rfl <;> exact absurd h (by decide)

theorem goodNetlocChar_nf {c : Char} (h : goodNetlocChar c = true) : nfChar c = true := by
  by_contra hc
  rw [Bool.not_eq_true] at hc
  simp only [nfChar, Bool.not_eq_false', Bool.or_eq_true, decide_eq_true_eq] at hc
  rcases hc with (rfl | rfl) | rfl <;> exact absurd h (by decide)

theorem goodNetlocChar_not_bracket {c : Char} (h : goodNetlocChar c = true) :
    c ≠ '[' ∧ c ≠ ']' := by
  constructor <;> rintro rfl <;> exact absurd h (by decide)

theorem scrubUrl_eq_self {l : List Char}
    (h1 : ∀ a ∈ l.head?, c0OrSpace a = false)
    (h2 : ∀ a ∈ l, nfChar a = true) : scrubUrl l = l := by
  unfold scrubUrl
  have hd : l.dropWhile c0OrSpace = l := by
    cases l with
    | nil => rfl
    | cons a xs => simp [List.dropWhile_cons, h1 a (by simp)]
  rw [hd]
  exact List.filter_eq_self.mpr h2

theorem detectScheme_slash (xs : List Char) : detectScheme ('/' :: xs) = none := by
  unfold detectScheme
  rw [List.span_eq_take_drop]
  simp [List.takeWhile_cons, List.dropWhile_cons]
  split <;> simp

theorem detectScheme_http (rest : List Char) :
    detectScheme ('h' :: 't' :: 't' :: 'p' :: ':' :: rest) =
      some (['h', 't', 't', 'p'], rest) := by
  unfold detectScheme
  rw [List.span_eq_take_drop]
  simp [List.takeWhile_cons, List.dropWhile_cons, isSchemeChar]

theorem detectScheme_https (rest : List Char) :
    detectScheme ('h' :: 't' :: 't' :: 'p' :: 's' :: ':' :: rest) =
      some (['h', 't', 't', 'p', 's'], rest) := by
  unfold detectScheme
  rw [List.span_eq_take_drop]
  simp [List.takeWhile_cons, List.dropWhile_cons, isSchemeChar]

theorem netloc_span_take {n t : String}
    (hnc : ∀ ch ∈ n.data, goodNetlocChar ch = true) (ht : tailOk t) :
    (n.data ++ t.data).takeWhile (fun c => !netlocStop c) = n.data ∧
    (n.data ++ t.data).dropWhile (fun c => !netlocStop c) = t.data := by
  have hall : ∀ a ∈ n.data, (fun c => !netlocStop c) a = true := fun a ha => by
    show (!netlocStop a) = true
    rw [goodNetlocChar_not_stop (hnc a ha)]
    rfl
  have htail : t.data.takeWhile (fun c => !netlocStop c) = [] ∧
      t.data.dropWhile (fun c => !netlocStop c) = t.data := by
    rcases ht with h | h | h | h
    · rw [h]
      exact ⟨rfl, rfl⟩
    · cases hd : t.data with
      | nil => exact ⟨rfl, rfl⟩
      | cons a l =>
        rw [hd] at h
        simp only [List.head?_cons, Option.some.injEq] at h
        subst h
        constructor <;> simp [List.takeWhile_cons, List.dropWhile_cons, netlocStop]
    · cases hd : t.data with
      | nil => exact ⟨rfl, rfl⟩
      | cons a l =>
        rw [hd] at h
        simp only [List.head?_cons, Option.some.injEq] at h
        subst h
        constructor <;> simp [List.takeWhile_cons, List.dropWhile_cons, netlocStop]
    · cases hd : t.data with
      | nil => exact ⟨rfl, rfl⟩
      | cons a l =>
        rw [hd] at h
        simp only [List.head?_cons, Option.some.injEq] at h
        subst h
        constructor <;> simp [List.takeWhile_cons, List.dropWhile_cons, netlocStop]
  constructor
  · rw [takeWhile_append_all hall, htail.1, List.append_nil]
  · rw [dropWhile_append_all hall, htail.2]

theorem urlsplitRest_shape (sch : String) (n t : String)
    (hnc : ∀ ch ∈ n.data, goodNetlocChar ch = true) (ht : tailOk t) :
    ∃ p q f, urlsplitRest sch ('/' :: '/' :: (n.data ++ t.data)) = .ok ⟨sch, n, p, q, f⟩ := by
  obtain ⟨htake, hdrop⟩ := netloc_span_take hnc ht
  have hopen : n.data.any (fun c => decide (c = '[')) = false := by
    rw [List.any_eq_false]
    intro a ha
    simp only [decide_eq_true_eq]
    exact (goodNetlocChar_not_bracket (hnc a ha)).1
  have hclose : n.data.any (fun c => decide (c = ']')) = false := by
    rw [List.any_eq_false]
    intro a ha
    simp only [decide_eq_true_eq]
    exact (goodNetlocChar_not_bracket (hnc a ha)).2
  unfold urlsplitRest
  simp only [List.span_eq_take_drop, htake, hdrop, hopen, hclose, Bool.and_false,
    Bool.false_and, Bool.or_self, Bool.false_or, Bool.and_self]
  exact ⟨_, _, _, rfl⟩

theorem urlsplitE_shape (sch n t : String) (hs : sch = "http" ∨ sch = "https")
    (hnc : ∀ ch ∈ n.data, goodNetlocChar ch = true)
    (ht : tailOk t) (htn : ∀ ch ∈ t.data, nfChar ch = true) :
    ∃ p q f, urlsplitE (sch ++ "://" ++ n ++ t) = .ok ⟨sch, n, p, q, f⟩ := by
  rcases hs with rfl | rfl
  · have hd : ("http" ++ "://" ++ n ++ t).data =
        'h' :: 't' :: 't' :: 'p' :: ':' :: '/' :: '/' :: (n.data ++ t.data) := by
      simp [String.data_append]
    have hnf : ∀ a ∈ 'h' :: 't' :: 't' :: 'p' :: ':' :: '/' :: '/' :: (n.data ++ t.data),
        nfChar a = true := by
      intro a ha
      simp only [List.mem_cons, List.mem_append] at ha
      rcases ha with rfl | rfl | rfl | rfl | rfl | rfl | rfl | ha | ha
      · decide
      · decide
      · decide
      · decide
      · decide
      · decide
      · decide
      · exact goodNetlocChar_nf (hnc a ha)
      · exact htn a ha
    unfold urlsplitE
    rw [hd, scrubUrl_eq_self (by intro a ha; simp only [List.head?_cons, Option.mem_def,
        Option.some.injEq] at ha; subst ha; decide) hnf, detectScheme_http]
    have hlow : lowerStr (String.mk ['h', 't', 't', 'p']) = "http" := by decide
    obtain ⟨p, q, f, hr⟩ := urlsplitRest_shape "http" n t hnc ht
    refine ⟨p, q, f, ?_⟩
    show urlsplitRest (lowerStr (String.mk ['h', 't', 't', 'p']))
      ('/' :: '/' :: (n.data ++ t.data)) = _
    rw [hlow]
    exact hr
  · have hd : ("https" ++ "://" ++ n ++ t).data =
        'h' :: 't' :: 't' :: 'p' :: 's' :: ':' :: '/' :: '/' :: (n.data ++ t.data) := by
      simp [String.data_append]
    have hnf : ∀ a ∈ 'h' :: 't' :: 't' :: 'p' :: 's' :: ':' :: '/' :: '/' :: (n.data ++ t.data),
        nfChar a = true := by
      intro a ha
      simp only [List.mem_cons, List.mem_append] at ha
      rcases ha with rfl | rfl | rfl | rfl | rfl | rfl | rfl | rfl | ha | ha
      · decide
      · decide
      · decide
      · decide
      · decide
      · decide
      · decide
      · decide
      · exact goodNetlocChar_nf (hnc a ha)
      · exact htn a ha
    unfold urlsplitE
    rw [hd, scrubUrl_eq_self (by intro a ha; simp only [List.head?_cons, Option.mem_def,
        Option.some.injEq] at ha; subst ha; decide) hnf, detectScheme_https]
    have hlow : lowerStr (String.mk ['h', 't', 't', 'p', 's']) = "https" := by decide
    obtain ⟨p, q, f, hr⟩ := urlsplitRest_shape "https" n t hnc ht
    refine ⟨p, q, f, ?_⟩
    show urlsplitRest (lowerStr (String.mk ['h', 't', 't', 'p', 's']))
      ('/' :: '/' :: (n.data ++ t.data)) = _
    rw [hlow]
    exact hr

theorem py_urlparseE_shape (sch n t : String) (hs : sch = "http" ∨ sch = "https")
    (hnc : ∀ ch ∈ n.data, goodNetlocChar ch = true)
    (ht : tailOk t) (htn : ∀ ch ∈ t.data, nfChar ch = true) :
    ∃ p pr q f, py_urlparseE (sch ++ "://" ++ n ++ t) = .ok ⟨sch, n, p, pr, q, f⟩ := by
  obtain ⟨p, q, f, hsp⟩ := urlsplitE_shape sch n t hs hnc ht htn
  unfold py_urlparseE
  rw [hsp]
  simp only [Except.map]
  split
  · exact ⟨_, _, _, _, rfl⟩
  · exact ⟨_, _, _, _, rfl⟩

theorem string_ext {a b : String} (h : a.data = b.data) : a = b := by
  cases a
  cases b
  cases h
  rfl

theorem urlunsplit_forced (sch n u0 q f : String) (hs : sch ≠ "") (hn : n ≠ "") :
    forcedToBase sch n (urlunsplit ⟨sch, n, u0, q, f⟩) := by
  unfold urlunsplit
  simp only []
  rw [if_pos (by simp [hn] : (decide ¬n = "" || (decide ¬u0 = "" && firstTwoSlash u0)) = true)]
  simp only [if_pos hs]
  by_cases hu : u0 = ""
  · have hcz : (decide (u0 ≠ "") && !firstIs u0 '/') = false := by simp [hu]
    rw [if_neg (show ¬((decide (u0 ≠ "") && !firstIs u0 '/') = true) by rw [hcz]; exact Bool.false_ne_true)]
    subst hu
    by_cases hq : q = ""
    · rw [if_neg (show ¬(q ≠ "") by simp [hq])]
      by_cases hf : f = ""
      · rw [if_neg (show ¬(f ≠ "") by simp [hf])]
        exact ⟨"", string_ext (by simp [String.data_append]), Or.inl rfl⟩
      · rw [if_pos (show f ≠ "" from hf)]
        refine ⟨"#" ++ f, string_ext (by simp [String.data_append]), ?_⟩
        right; right; right
        simp [String.data_append]
    · rw [if_pos (show q ≠ "" from hq)]
      by_cases hf : f = ""
      · rw [if_neg (show ¬(f ≠ "") by simp [hf])]
        refine ⟨"?" ++ q, string_ext (by simp [String.data_append]), ?_⟩
        right; right; left
        simp [String.data_append]
      · rw [if_pos (show f ≠ "" from hf)]
        refine ⟨"?" ++ q ++ "#" ++ f, string_ext (by simp [String.data_append]), ?_⟩
        right; right; left
        simp [String.data_append]
  · by_cases hfi : firstIs u0 '/' = true
    · have hcz : (decide (u0 ≠ "") && !firstIs u0 '/') = false := by simp [hfi]
      rw [if_neg (show ¬((decide (u0 ≠ "") && !firstIs u0 '/') = true) by rw [hcz]; exact Bool.false_ne_true)]
      obtain ⟨rest, hrest⟩ : ∃ rest, u0.data = '/' :: rest := by
        unfold firstIs at hfi
        cases hd : u0.data with
        | nil => rw [hd] at hfi; simp at hfi
        | cons a l =>
          rw [hd] at hfi
          simp only [List.head?_cons, Option.some.injEq, decide_eq_true_eq] at hfi
          exact ⟨l, by rw [hfi]⟩
      by_cases hq : q = ""
      · rw [if_neg (show ¬(q ≠ "") by simp [hq])]
        by_cases hf : f = ""
        · rw [if_neg (show ¬(f ≠ "") by simp [hf])]
          refine ⟨u0, string_ext (by simp [String.data_append]), ?_⟩
          right; left
          simp [hrest]
        · rw [if_pos (show f ≠ "" from hf)]
          refine ⟨u0 ++ "#" ++ f, string_ext (by simp [String.data_append]), ?_⟩
          right; left
          simp [String.data_append, hrest]
      · rw [if_pos (show q ≠ "" from hq)]
        by_cases hf : f = ""
        · rw [if_neg (show ¬(f ≠ "") by simp [hf])]
          refine ⟨u0 ++ "?" ++ q, string_ext (by simp [String.data_append]), ?_⟩
          right; left
          simp [String.data_append, hrest]
        · rw [if_pos (show f ≠ "" from hf)]
          refine ⟨u0 ++ "?" ++ q ++ "#" ++ f, string_ext (by simp [String.data_append]), ?_⟩
          right; left
          simp [String.data_append, hrest]
    · have hcz : (decide (u0 ≠ "") && !firstIs u0 '/') = true := by
        simp only [Bool.not_eq_true] at hfi
        simp [hu, hfi]
      rw [if_pos hcz]
      by_cases hq : q = ""
      · rw [if_neg (show ¬(q ≠ "") by simp [hq])]
        by_cases hf : f = ""
        · rw [if_neg (show ¬(f ≠ "") by simp [hf])]
          refine ⟨"/" ++ u0, string_ext (by simp [String.data_append]), ?_⟩
          right; left
          simp [String.data_append]
        · rw [if_pos (show f ≠ "" from hf)]
          refine ⟨"/" ++ u0 ++ "#" ++ f, string_ext (by simp [String.data_append]), ?_⟩
          right; left
          simp [String.data_append]
      · rw [if_pos (show q ≠ "" from hq)]
        by_cases hf : f = ""
        · rw [if_neg (show ¬(f ≠ "") by simp [hf])]
          refine ⟨"/" ++ u0 ++ "?" ++ q, string_ext (by simp [String.data_append]), ?_⟩
          right; left
          simp [String.data_append]
        · rw [if_pos (show f ≠ "" from hf)]
          refine ⟨"/" ++ u0 ++ "?" ++ q ++ "#" ++ f,
            string_ext (by simp [String.data_append]), ?_⟩
          right; left
          simp [String.data_append]

theorem urlunparse_forced (sch n path params q f : String) (hs : sch ≠ "") (hn : n ≠ "") :
    forcedToBase sch n (urlunparse sch n path params q f) := by
  unfold urlunparse
  exact urlunsplit_forced sch n _ q f hs hn

theorem urlsplitRest_scheme_swap (s1 s2 : String) (rest : List Char) :
    urlsplitRest s1 rest = (urlsplitRest s2 rest).map
      (fun r => ⟨s1, r.netloc, r.path, r.query, r.fragment⟩) := by
  unfold urlsplitRest
  simp only []
  split
  · rfl
  · split
    · rfl
    · rfl

theorem urlsplitRest_scheme_eq {s : String} {rest : List Char} {r : SplitResult}
    (h : urlsplitRest s rest = .ok r) : r.scheme = s := by
  unfold urlsplitRest at h
  simp only [] at h
  split at h
  · exact absurd h (by simp)
  · split at h
    · exact absurd h (by simp)
    · cases h
      rfl

theorem scrub_slashslash {r : List Char} :
    scrubUrl ('/' :: '/' :: r) = '/' :: '/' :: r.filter nfChar := by
  unfold scrubUrl
  rw [List.dropWhile_cons]
  simp [c0OrSpace, nfChar, List.filter_cons]

theorem py_urlparseE_https_prefix (e : String) (ep : ParseResult)
    (h2 : firstTwoSlash e = true) (he : py_urlparseE e = .ok ep) :
    py_urlparseE ("https:" ++ e) =
      .ok ⟨"https", ep.netloc, ep.path, ep.params, ep.query, ep.fragment⟩ := by
  obtain ⟨r, hr⟩ : ∃ r, e.data = '/' :: '/' :: r := by
    unfold firstTwoSlash at h2
    split at h2
    · rename_i heq
      exact ⟨_, heq⟩
    · exact absurd h2 (by simp)
  have hdata : ("https:" ++ e).data = 'h' :: 't' :: 't' :: 'p' :: 's' :: ':' :: '/' :: '/' :: r := by
    rw [String.data_append, hr]
    rfl
  have hsplit_e : urlsplitE e = urlsplitRest "" ('/' :: '/' :: r.filter nfChar) := by
    unfold urlsplitE
    have hscrub : scrubUrl e.data = '/' :: '/' :: r.filter nfChar := by
      rw [hr]
      exact scrub_slashslash
    rw [hscrub, detectScheme_slash]
  have hsplit_pre : urlsplitE ("https:" ++ e) =
      urlsplitRest "https" ('/' :: '/' :: r.filter nfChar) := by
    unfold urlsplitE
    have hscrub : scrubUrl ("https:" ++ e).data =
        'h' :: 't' :: 't' :: 'p' :: 's' :: ':' :: '/' :: '/' :: r.filter nfChar := by
      rw [hdata]
      unfold scrubUrl
      rw [List.dropWhile_cons]
      simp [c0OrSpace, nfChar, List.filter_cons]
    rw [hscrub, detectScheme_https]
    show urlsplitRest (lowerStr (String.mk ['h', 't', 't', 'p', 's'])) _ = _
    rw [show lowerStr (String.mk ['h', 't', 't', 'p', 's']) = "https" from by decide]
  unfold py_urlparseE at he ⊢
  rw [hsplit_pre, urlsplitRest_scheme_swap "https" ""]
  rw [hsplit_e] at he
  cases hr0 : urlsplitRest "" ('/' :: '/' :: r.filter nfChar) with
  | error err => rw [hr0] at he; exact absurd he (by simp [Except.map])
  | ok r0 =>
    rw [hr0] at he
    simp only [Except.map] at he ⊢
    have hs0 : r0.scheme = "" := urlsplitRest_scheme_eq hr0
    have hc1 : uses_params.contains ("" : String) = true := by decide
    have hc2 : uses_params.contains ("https" : String) = true := by decide
    by_cases hsemi : r0.path.data.any (fun c => decide (c = ';')) = true
    · simp only [hs0, hc1, hc2, hsemi, Bool.and_self, Bool.true_and, if_true] at he ⊢
      cases he
      rfl
    · simp only [hs0, hc1, hc2, Bool.true_and, hsemi, if_false,
        Bool.false_eq_true] at he ⊢
      cases he
      rfl

theorem urljoinE_forced (baseStr e : String) (sch n : String) (bres ep : ParseResult)
    (hs : sch = "http" ∨ sch = "https") (hn : n ≠ "")
    (hb : py_urlparseE baseStr = .ok bres) (hbs : bres.scheme = sch) (hbn : bres.netloc = n)
    (hbase_shape : forcedToBase sch n baseStr)
    (he : py_urlparseE e = .ok ep) (hsch : ep.scheme = "") (hnet : ep.netloc = "") :
    ∃ u, urljoinE baseStr e = .ok u ∧ forcedToBase sch n u := by
  have hs' : sch ≠ "" := by rcases hs with rfl | rfl <;> decide
  have hbne : ¬(baseStr = "") := by
    obtain ⟨tl, htl, -⟩ := hbase_shape
    intro hcontra
    rw [hcontra] at htl
    have hd := congrArg String.data htl
    rcases hs with rfl | rfl <;> simp [String.data_append] at hd
  unfold urljoinE
  rw [if_neg hbne]
  by_cases hurl : e = ""
  · rw [if_pos hurl]
    exact ⟨baseStr, rfl, hbase_shape⟩
  rw [if_neg hurl]
  rw [hb, he]
  simp only [Except.bind, Bind.bind]
  rw [if_pos hsch]
  have hrel : sch ∈ uses_relative := by rcases hs with rfl | rfl <;> decide
  have hnetl : sch ∈ uses_netloc := by rcases hs with rfl | rfl <;> decide
  have hcond1 : ¬((decide (({ ep with scheme := bres.scheme } : ParseResult).scheme ≠ bres.scheme) ||
      !(uses_relative.contains ({ ep with scheme := bres.scheme } : ParseResult).scheme)) = true) := by
    simp [hbs, hrel]
  rw [if_neg hcond1]
  have hcond2 : ¬((uses_netloc.contains ({ ep with scheme := bres.scheme } : ParseResult).scheme &&
      decide (({ ep with scheme := bres.scheme } : ParseResult).netloc ≠ "")) = true) := by
    simp [hnet]
  rw [if_neg hcond2]
  have hrnet : (if uses_netloc.contains ({ ep with scheme := bres.scheme } : ParseResult).scheme = true then
      if ({ ep with scheme := bres.scheme } : ParseResult).netloc ≠ "" then
        ({ ep with scheme := bres.scheme } : ParseResult).netloc
      else bres.netloc
    else ({ ep with scheme := bres.scheme } : ParseResult).netloc) = n := by
    simp only []
    rw [if_pos (by simp [hbs, hnetl]), if_neg (by simp [hnet]), hbn]
  by_cases hpp : ((decide (({ ep with scheme := bres.scheme } : ParseResult).path = "")) &&
      (decide (({ ep with scheme := bres.scheme } : ParseResult).params = ""))) = true
  · rw [if_pos hpp, hrnet]
    refine ⟨_, rfl, ?_⟩
    have hsc : ({ ep with scheme := bres.scheme } : ParseResult).scheme = sch := hbs
    rw [hsc]
    exact urlunparse_forced sch n _ _ _ _ hs' hn
  · rw [if_neg hpp, hrnet]
    refine ⟨_, rfl, ?_⟩
    have hsc : ({ ep with scheme := bres.scheme } : ParseResult).scheme = sch := hbs
    rw [hsc]
    exact urlunparse_forced sch n _ _ _ _ hs' hn

theorem takeWhile_all {p : Char → Bool} {l : List Char} (h : ∀ a ∈ l, p a = true) :
    l.takeWhile p = l := by
  induction l with
  | nil => rfl
  | cons a xs ih => simp [List.takeWhile_cons, h a (by simp), ih (fun x hx => h x (by simp [hx]))]

theorem hostChar_good {c : Char} (h : hostChar c = true) : goodNetlocChar c = true := by
  simp only [hostChar, Bool.or_eq_true, decide_eq_true_eq] at h
  simp only [goodNetlocChar, Bool.or_eq_true, decide_eq_true_eq]
  rcases h with ((h | h) | h) | h
  · exact Or.inl (Or.inl (Or.inl (Or.inl (Or.inl h))))
  · exact Or.inl (Or.inl (Or.inl (Or.inl (Or.inr h))))
  · exact Or.inl (Or.inl (Or.inl (Or.inr h)))
  · exact Or.inl (Or.inr h)

theorem hostChar_not_special {c : Char} (h : hostChar c = true) :
    c ≠ ':' ∧ c ≠ '@' ∧ c ≠ '[' := by
  refine ⟨?_, ?_, ?_⟩ <;> rintro rfl <;> exact absurd h (by decide)

theorem digit_good {c : Char} (h : c.isDigit = true) : goodNetlocChar c = true := by
  simp [goodNetlocChar, Char.isAlphanum, h]

theorem digit_not_special {c : Char} (h : c.isDigit = true) :
    c ≠ ':' ∧ c ≠ '@' ∧ c ≠ '[' := by
  refine ⟨?_, ?_, ?_⟩ <;> rintro rfl <;> exact absurd h (by decide)

theorem py_hostname_port (h p : String)
    (hh : ∀ c ∈ h.data, hostChar c = true) (hp : ∀ c ∈ p.data, c.isDigit = true) :
    py_hostname (h ++ ":" ++ p) = py_hostname h := by
  unfold py_hostname
  have hd : (h ++ ":" ++ p).data = h.data ++ ':' :: p.data := by
    simp [String.data_append]
  rw [hd]
  have hno_at : ∀ l : List Char, (∀ c ∈ l, c ≠ '@') →
      ((l.reverse.span (fun c => decide (c ≠ '@'))).1).reverse = l := by
    intro l hl
    rw [List.span_eq_take_drop, takeWhile_all (fun a ha => by
      simp only [decide_eq_true_eq]
      exact hl a (List.mem_reverse.mp ha)), List.reverse_reverse]
  have hat1 : ((h.data ++ ':' :: p.data).reverse.span (fun c => decide (c ≠ '@'))).1.reverse =
      h.data ++ ':' :: p.data := by
    apply hno_at
    intro c hc
    rcases List.mem_append.mp hc with hc | hc
    · exact (hostChar_not_special (hh c hc)).2.1
    · rcases List.mem_cons.mp hc with rfl | hc
      · decide
      · exact (digit_not_special (hp c hc)).2.1
  have hat2 : ((h.data).reverse.span (fun c => decide (c ≠ '@'))).1.reverse = h.data := by
    apply hno_at
    intro c hc
    exact (hostChar_not_special (hh c hc)).2.1
  rw [hat1, hat2]
  simp only []
  have hbr1 : (h.data ++ ':' :: p.data).any (fun c => decide (c = '[')) = false := by
    rw [List.any_eq_false]
    intro a ha
    simp only [decide_eq_true_eq]
    rcases List.mem_append.mp ha with ha | ha
    · exact (hostChar_not_special (hh a ha)).2.2
    · rcases List.mem_cons.mp ha with rfl | ha
      · decide
      · exact (digit_not_special (hp a ha)).2.2
  have hbr2 : (h.data).any (fun c => decide (c = '[')) = false := by
    rw [List.any_eq_false]
    intro a ha
    simp only [decide_eq_true_eq]
    exact (hostChar_not_special (hh a ha)).2.2
  rw [hbr1, hbr2]
  simp only [Bool.false_eq_true, if_false]
  have hsp1 : ((h.data ++ ':' :: p.data).span (fun c => decide (c ≠ ':'))).1 = h.data := by
    rw [List.span_eq_take_drop, takeWhile_append_all (fun a ha => by
      simp only [decide_eq_true_eq]
      exact (hostChar_not_special (hh a ha)).1)]
    simp [List.takeWhile_cons]
  have hsp2 : ((h.data).span (fun c => decide (c ≠ ':'))).1 = h.data := by
    rw [List.span_eq_take_drop, takeWhile_all (fun a ha => by
      simp only [decide_eq_true_eq]
      exact (hostChar_not_special (hh a ha)).1)]
  rw [hsp1, hsp2]

theorem startsWithLit_append_https (a b : String) :
    startsWithLit ("https://" ++ a ++ b) "https://" = true := by
  unfold startsWithLit
  simp [String.data_append, List.isPrefixOf]

/-! ### Claims C5, C6, C10: the blocking retry state machine -/

/-- C5: for every blocking request with at least one attempt, a 502
response with attempts remaining causes a backoff sleep and a retry, a
502 on the last attempt is returned as an ordinary response, and any
other status is returned unchanged with no further retry; concretely, a
POST whose transport yields 502 on every attempt with `retries = 2`
returns the final 502 after exactly 2 transport calls, and a POST
yielding 502, 502, 200 with `retries = 3` returns the 200 response
after exactly 3 transport calls. -/
theorem C5_blocking_502_retry_policy :
    (∀ (tr : Nat → TransportOutcome) (bf : ℚ) (retries : Int) (k s : Nat),
        k < retries.toNat →
        (∀ i, i < k → tr i = .response 502) →
        tr k = .response s →
        (s ≠ 502 ∨ k + 1 = retries.toNat) →
        run_with_retries tr bf retries =
          ⟨.returned s, k + 1, (List.range k).map (fun i => bf * 2 ^ i)⟩) ∧
    (∀ (c : HttpClient) (e : String) (d : List (String × PyVal))
        (h : Option (List (String × String))) (bf : ℚ) (u : String),
        c.build_url e = .ok u →
        (c.post e d h (fun _ => .response 502) 2 bf).run =
          some ⟨.returned 502, 2, [bf]⟩) ∧
    (∀ (c : HttpClient) (e : String) (d : List (String × PyVal))
        (h : Option (List (String × String))) (bf : ℚ) (u : String),
        c.build_url e = .ok u →
        (c.post e d h (fun i => if i < 2 then .response 502 else .response 200) 3 bf).run =
          some ⟨.returned 200, 3, [bf, bf * 2]⟩) := by
  refine ⟨?_, ?_, ?_⟩
  · intro tr bf retries k s hk h502 htr hlast
    have := retry_loop_502_trace tr bf k 0 retries.toNat s hk
      (fun i hi => by simpa using h502 i hi) (by simpa using htr) hlast
    rw [run_with_retries, this]
    refine congrArg _ ?_
    exact List.map_congr_left (fun i _ => by
      show bf * 2 ^ (0 + i) = bf * 2 ^ i
      rw [Nat.zero_add])
  · intro c e d h bf u hu
    simp only [HttpClient.post, hu]
    refine congrArg _ ?_
    show run_with_retries (fun _ => .response 502) bf 2 = _
    simp [run_with_retries, retry_loop]
  · intro c e d h bf u hu
    simp only [HttpClient.post, hu]
    refine congrArg _ ?_
    show run_with_retries (fun i => if i < 2 then .response 502 else .response 200) bf 3 = _
    simp [run_with_retries, retry_loop]

/-- Witness for C5 at concrete inputs: a 404 on the first attempt is
returned immediately, and an all-502 POST with two retries returns the
502 after two calls and one sleep. -/
theorem C5_blocking_502_retry_policy_witness :
    run_with_retries (fun _ => .response 404) (1/2 : ℚ) 3 =
      ⟨.returned 404, 1, []⟩ ∧
    ((HttpClient.mk (some "k") "https://api.example.com" "1.0").post "/v1/scrape" []
        none (fun _ => .response 502) 2 (1/2 : ℚ)).run =
      some ⟨.returned 502, 2, [(1/2 : ℚ)]⟩ :=
  ⟨C5_blocking_502_retry_policy.1 (fun _ => .response 404) (1/2 : ℚ) 3 0 404 (by decide)
      (fun i hi => absurd hi (by omega)) rfl (Or.inl (by decide)),
   C5_blocking_502_retry_policy.2.1 (HttpClient.mk (some "k") "https://api.example.com" "1.0")
      "/v1/scrape" [] none (1/2 : ℚ) "https://api.example.com/v1/scrape" (by decide)⟩

/-- C6: for every blocking request whose transport raises a fault on
an attempt, the fault is propagated unchanged if it is the last
attempt, and otherwise the executor sleeps `backoff_factor * 2 ^
attempt` and retries; concretely, a GET raising on every attempt with
`retries = 2` raises the fault after exactly 2 attempts with exactly
one backoff sleep of `backoff_factor * 1`. -/
theorem C6_blocking_fault_retry_policy :
    (∀ (tr : Nat → TransportOutcome) (bf : ℚ) (retries : Int) (efn : Nat → Nat),
        0 < retries.toNat →
        (∀ i, i < retries.toNat → tr i = .fault (efn i)) →
        run_with_retries tr bf retries =
          ⟨.raised (efn (retries.toNat - 1)), retries.toNat,
            (List.range (retries.toNat - 1)).map (fun i => bf * 2 ^ i)⟩) ∧
    (∀ (c : HttpClient) (e : String) (h : Option (List (String × String))) (bf : ℚ)
        (u : String) (f : Nat),
        c.build_url e = .ok u →
        (c.get e h (fun _ => .fault f) 2 bf).run = some ⟨.raised f, 2, [bf * 1]⟩) := by
  constructor
  · intro tr bf retries efn hpos hf
    have := retry_loop_fault_trace tr bf retries.toNat 0 efn hpos
      (fun i hi => by simpa using hf i hi)
    rw [run_with_retries, this]
    refine congrArg _ ?_
    exact List.map_congr_left (fun i _ => by
      show bf * 2 ^ (0 + i) = bf * 2 ^ i
      rw [Nat.zero_add])
  · intro c e h bf u f hu
    simp only [HttpClient.get, hu]
    refine congrArg _ ?_
    show run_with_retries (fun _ => .fault f) bf 2 = _
    simp [run_with_retries, retry_loop]

/-- Witness for C6 at concrete inputs: an all-fault GET with two
retries raises the fault after two attempts and one sleep of
`backoff_factor * 1`. -/
theorem C6_blocking_fault_retry_policy_witness :
    ((HttpClient.mk (some "k") "https://api.example.com" "1.0").get "/v1/scrape"
        none (fun _ => .fault 7) 2 (1/2 : ℚ)).run =
      some ⟨.raised 7, 2, [(1/2 : ℚ) * 1]⟩ :=
  C6_blocking_fault_retry_policy.2 (HttpClient.mk (some "k") "https://api.example.com" "1.0")
    "/v1/scrape" none (1/2 : ℚ) "https://api.example.com/v1/scrape" 7 (by decide)

/-- C10: a blocking `post`/`get`/`delete` call with `retries ≤ 0`
issues no transport call and raises the generic
`Exception("Unexpected error ...")` instead of returning a response
(the endpoint is assumed to resolve, so no earlier parse error is
raised). -/
theorem C10_nonpositive_retries_raise_generic :
    ∀ (c : HttpClient) (e : String) (d : List (String × PyVal))
      (h : Option (List (String × String))) (tr : Nat → TransportOutcome)
      (bf : ℚ) (r : Int) (u : String),
      r ≤ 0 → c.build_url e = .ok u →
      (c.post e d h tr r bf).run = some ⟨.raisedGeneric, 0, []⟩ ∧
      (c.get e h tr r bf).run = some ⟨.raisedGeneric, 0, []⟩ ∧
      (c.delete e h tr r bf).run = some ⟨.raisedGeneric, 0, []⟩ := by
  intro c e d h tr bf r u hr hu
  have hz : r.toNat = 0 := Int.toNat_of_nonpos hr
  refine ⟨?_, ?_, ?_⟩
  · simp [HttpClient.post, hu, run_with_retries, hz, retry_loop]
  · simp [HttpClient.get, hu, run_with_retries, hz, retry_loop]
  · simp [HttpClient.delete, hu, run_with_retries, hz, retry_loop]

/-- Witness for C10 at concrete inputs: with `retries = 0` the POST
issues no transport call and ends in the generic exception. -/
theorem C10_nonpositive_retries_raise_generic_witness :
    ((HttpClient.mk (some "k") "https://api.example.com" "1.0").post "/v1/scrape" []
        none (fun _ => .response 200) 0 (1/2 : ℚ)).run =
      some ⟨.raisedGeneric, 0, []⟩ :=
  (C10_nonpositive_retries_raise_generic (HttpClient.mk (some "k") "https://api.example.com" "1.0")
    "/v1/scrape" [] none (fun _ => .response 200) (1/2 : ℚ) 0
    "https://api.example.com/v1/scrape" (by decide) (by decide)).1

/-! ### Claims C2, C3: the credential gate and the origin comparator -/

/-- C2 (amended): for every credential and endpoint, the header set
built by the blocking `_prepare_headers` and the async `_headers`
contains the Authorization header, with value `"Bearer " + trim(key)`,
exactly when the credential is non-empty after trimming and the
endpoint is same-host in the code's sense: no lowercase absolute-URL
prefix, or hostnames equal after stripping all (not just one) trailing
dots and lower-casing, ports ignored, parse failure failing closed. -/
theorem C2_auth_header_iff :
    (∀ (c : HttpClient) (e : String) (idem : Option String),
        lookup (c.prepare_headers e idem) "Authorization" =
          (match c.api_key with
           | some k =>
             if k ≠ "" ∧ pyStrip k ≠ "" ∧ sameOriginSpec c.api_url e then
               some ("Bearer " ++ pyStrip k)
             else none
           | none => none)) ∧
    (∀ (c : AsyncHttpClient) (e : String) (idem : Option String),
        lookup (c.headers_fn e idem) "Authorization" =
          (match c.api_key with
           | some k =>
             if k ≠ "" ∧ pyStrip k ≠ "" ∧ sameOriginSpec c.api_url e then
               some ("Bearer " ++ pyStrip k)
             else none
           | none => none)) := by
  have hne : ("Authorization" : String) ≠ "x-idempotency-key" := by decide
  constructor
  · intro c e idem
    have hss : c.is_same_host e = sameOriginSpec c.api_url e := rfl
    cases hk : c.api_key with
    | none =>
      cases idem with
      | none =>
        simp only [HttpClient.prepare_headers, hk]
        decide
      | some ik =>
        simp only [HttpClient.prepare_headers, hk]
        by_cases hik : ik ≠ ""
        · rw [if_pos hik, lookup_setKey_ne _ _ _ _ hne]
          decide
        · rw [if_neg hik]
          decide
    | some k =>
      cases idem with
      | none =>
        simp only [HttpClient.prepare_headers, hk]
        rw [hss]
        by_cases hcond : k ≠ "" ∧ pyStrip k ≠ "" ∧ sameOriginSpec c.api_url e = true
        · simp only [if_pos hcond]
          exact lookup_setKey_self _ _ _
        · simp only [if_neg hcond]
          decide
      | some ik =>
        simp only [HttpClient.prepare_headers, hk]
        rw [hss]
        by_cases hcond : k ≠ "" ∧ pyStrip k ≠ "" ∧ sameOriginSpec c.api_url e = true
        · simp only [if_pos hcond]
          by_cases hik : ik ≠ ""
          · rw [if_pos hik, lookup_setKey_ne _ _ _ _ hne]
            exact lookup_setKey_self _ _ _
          · rw [if_neg hik]
            exact lookup_setKey_self _ _ _
        · simp only [if_neg hcond]
          by_cases hik : ik ≠ ""
          · rw [if_pos hik, lookup_setKey_ne _ _ _ _ hne]
            decide
          · rw [if_neg hik]
            decide
  · intro c e idem
    have hss : c.is_same_host e = sameOriginSpec c.api_url e := rfl
    cases hk : c.api_key with
    | none =>
      cases idem with
      | none =>
        simp only [AsyncHttpClient.headers_fn, hk]
        decide
      | some ik =>
        simp only [AsyncHttpClient.headers_fn, hk]
        by_cases hik : ik ≠ ""
        · rw [if_pos hik, lookup_setKey_ne _ _ _ _ hne]
          decide
        · rw [if_neg hik]
          decide
    | some k =>
      cases idem with
      | none =>
        simp only [AsyncHttpClient.headers_fn, hk]
        rw [hss]
        by_cases hcond : k ≠ "" ∧ pyStrip k ≠ "" ∧ sameOriginSpec c.api_url e = true
        · simp only [if_pos hcond]
          exact lookup_setKey_self _ _ _
        · simp only [if_neg hcond]
          decide
      | some ik =>
        simp only [AsyncHttpClient.headers_fn, hk]
        rw [hss]
        by_cases hcond : k ≠ "" ∧ pyStrip k ≠ "" ∧ sameOriginSpec c.api_url e = true
        · simp only [if_pos hcond]
          by_cases hik : ik ≠ ""
          · rw [if_pos hik, lookup_setKey_ne _ _ _ _ hne]
            exact lookup_setKey_self _ _ _
          · rw [if_neg hik]
            exact lookup_setKey_self _ _ _
        · simp only [if_neg hcond]
          by_cases hik : ik ≠ ""
          · rw [if_pos hik, lookup_setKey_ne _ _ _ _ hne]
            decide
          · rw [if_neg hik]
            decide

/-- Counterexample to C2 as stated: with credential `"k"` (non-empty
after trimming) and base `https://api.example.com`, the endpoint
`https://api.example.com..` receives the Authorization header although
its host does not equal the base host up to one trailing dot (the code
strips all trailing dots), and the endpoint `HTTPS://evil.com/x`
receives it although its host differs outright (the prefix test is
case-sensitive, so the endpoint counts as relative). -/
theorem C2_auth_header_iff_counterexample :
    lookup ((HttpClient.mk (some "k") "https://api.example.com" "1.0").prepare_headers
        "https://api.example.com.." none) "Authorization" = some "Bearer k" ∧
    pyStrip "k" ≠ "" ∧
    stripOneDot (lowerStr "api.example.com..") ≠ stripOneDot (lowerStr "api.example.com") ∧
    lookup ((HttpClient.mk (some "k") "https://api.example.com" "1.0").prepare_headers
        "HTTPS://evil.com/x" none) "Authorization" = some "Bearer k" ∧
    lowerStr "evil.com" ≠ lowerStr "api.example.com" := by
  refine ⟨by decide, by decide, by decide, by decide, by decide⟩

/-- C3 (amended): both `_is_same_host` implementations decide
same-origin exactly as `sameOriginSpec` does — for endpoints with a
literal lowercase `http://`/`https://` prefix, by extracting the
hostname only (no scheme, no port), lower-casing, stripping all
trailing dots and comparing for exact equality, with parse failure
yielding different-origin; endpoints without such a prefix (including
uppercase-scheme absolute URLs) count as same-origin.  Ports are
ignored: for every hostname and digit port, appending `:port` to an
absolute https endpoint leaves the decision unchanged; and there is no
suffix matching and no fail-open on parse errors, as the concrete
parts show. -/
theorem C3_same_host_characterization :
    (∀ (c : HttpClient) (e : String), c.is_same_host e = sameOriginSpec c.api_url e) ∧
    (∀ (c : AsyncHttpClient) (e : String), c.is_same_host e = sameOriginSpec c.api_url e) ∧
    (∀ (c : HttpClient) (h p path : String),
        (∀ ch ∈ h.data, hostChar ch = true) →
        (∀ ch ∈ p.data, ch.isDigit = true) →
        tailOk path → (∀ ch ∈ path.data, nfChar ch = true) →
        c.is_same_host ("https" ++ "://" ++ (h ++ ":" ++ p) ++ path) =
          c.is_same_host ("https" ++ "://" ++ h ++ path)) ∧
    (HttpClient.mk (some "k") "https://api.example.com" "1.0").is_same_host
      "https://api.example.com.evil.com/x" = false ∧
    (HttpClient.mk (some "k") "https://api.example.com" "1.0").is_same_host
      "https://[broken/x" = false ∧
    (HttpClient.mk (some "k") "https://api.example.com:443" "1.0").is_same_host
      "https://api.example.com:8080/x" = true := by
  refine ⟨fun c e => rfl, fun c e => rfl, ?_, by decide, by decide, by decide⟩
  intro c h p path hh hp hpath hpathnf
  have hnc1 : ∀ ch ∈ (h ++ ":" ++ p).data, goodNetlocChar ch = true := by
    intro ch hch
    rw [show (h ++ ":" ++ p).data = h.data ++ ':' :: p.data from by
      simp [String.data_append]] at hch
    rcases List.mem_append.mp hch with hch | hch
    · exact hostChar_good (hh ch hch)
    · rcases List.mem_cons.mp hch with rfl | hch
      · decide
      · exact digit_good (hp ch hch)
  have hnc2 : ∀ ch ∈ h.data, goodNetlocChar ch = true := fun ch hch => hostChar_good (hh ch hch)
  obtain ⟨p1, pr1, q1, f1, hs1⟩ :=
    py_urlparseE_shape "https" (h ++ ":" ++ p) path (Or.inr rfl) hnc1 hpath hpathnf
  obtain ⟨p2, pr2, q2, f2, hs2⟩ :=
    py_urlparseE_shape "https" h path (Or.inr rfl) hnc2 hpath hpathnf
  unfold HttpClient.is_same_host
  rw [if_neg (show ¬((!(startsWithLit ("https" ++ "://" ++ (h ++ ":" ++ p) ++ path) "http://" ||
      startsWithLit ("https" ++ "://" ++ (h ++ ":" ++ p) ++ path) "https://")) = true) by
    simp [startsWithLit_append_https])]
  rw [if_neg (show ¬((!(startsWithLit ("https" ++ "://" ++ h ++ path) "http://" ||
      startsWithLit ("https" ++ "://" ++ h ++ path) "https://")) = true) by
    simp [startsWithLit_append_https])]
  rw [hs1, hs2]
  cases hb : py_urlparseE c.api_url with
  | error err => rfl
  | ok b =>
    simp only []
    rw [py_hostname_port h p hh hp]

/-- Witness for C3's port-insensitivity at concrete inputs: appending
`:8443` to a same-host absolute endpoint leaves the decision unchanged. -/
theorem C3_same_host_characterization_witness :
    (HttpClient.mk (some "k") "https://api.example.com" "1.0").is_same_host
        ("https" ++ "://" ++ ("api.example.com" ++ ":" ++ "8443") ++ "/x") =
      (HttpClient.mk (some "k") "https://api.example.com" "1.0").is_same_host
        ("https" ++ "://" ++ "api.example.com" ++ "/x") :=
  C3_same_host_characterization.2.2.1
    (HttpClient.mk (some "k") "https://api.example.com" "1.0") "api.example.com" "8443" "/x"
    (by decide) (by decide) (Or.inr (Or.inl rfl)) (by decide)

/-- Counterexample to C3 as stated: `HTTPS://evil.com/x` is an
absolute URL (it parses with scheme `https` and host `evil.com`), yet
`_is_same_host` answers `true` against base `https://api.example.com`
rather than comparing hostnames; and for `https://api.example.com..`
the code's answer `true` disagrees with stripping exactly one trailing
dot. -/
theorem C3_same_host_characterization_counterexample :
    (HttpClient.mk (some "k") "https://api.example.com" "1.0").is_same_host
      "HTTPS://evil.com/x" = true ∧
    urlsplitE "HTTPS://evil.com/x" = .ok ⟨"https", "evil.com", "/x", "", ""⟩ ∧
    lowerStr (rstripDots "evil.com") ≠ lowerStr (rstripDots "api.example.com") ∧
    (HttpClient.mk (some "k") "https://api.example.com" "1.0").is_same_host
      "https://api.example.com.." = true ∧
    stripOneDot (lowerStr "api.example.com..") ≠ stripOneDot (lowerStr "api.example.com") := by
  refine ⟨by decide, by decide, by decide, by decide, by decide⟩

/-! ### Claim C4: explicit caller headers -/

/-- C4 (amended): when the call site supplies an explicit header
mapping, the blocking verbs bypass the header builder entirely and send
exactly the caller's mapping; the async verbs instead merge the built
headers with the caller's mapping, the caller's entries winning per
key but built entries for other keys (such as Authorization) still
being sent. -/
theorem C4_explicit_headers_replace_or_merge :
    (∀ (c : HttpClient) (e : String) (d : List (String × PyVal))
        (hs : List (String × String)) (tr : Nat → TransportOutcome) (r : Int) (bf : ℚ),
        (c.post e d (some hs) tr r bf).sentHeaders = hs ∧
        (c.get e (some hs) tr r bf).sentHeaders = hs ∧
        (c.delete e (some hs) tr r bf).sentHeaders = hs) ∧
    (∀ (c : AsyncHttpClient) (e : String) (d : List (String × PyVal))
        (hs : List (String × String)) (k : String),
        (hs.map Prod.fst).Nodup →
        ((c.post e d (some hs)).sentHeaders = dictMerge (c.headers_fn e none) hs ∧
         (c.get e (some hs)).sentHeaders = dictMerge (c.headers_fn e none) hs ∧
         (c.delete e (some hs)).sentHeaders = dictMerge (c.headers_fn e none) hs) ∧
        lookup (dictMerge (c.headers_fn e none) hs) k =
          (match lookup hs k with
           | some v => some v
           | none => lookup (c.headers_fn e none) k)) := by
  constructor
  · intro c e d hs tr r bf
    refine ⟨?_, ?_, ?_⟩ <;>
      (cases hb : c.build_url e <;> simp [HttpClient.post, HttpClient.get, HttpClient.delete, hb])
  · intro c e d hs k hnd
    refine ⟨⟨rfl, rfl, rfl⟩, ?_⟩
    cases hv : lookup hs k with
    | some v => exact lookup_dictMerge_of_some _ _ _ _ hnd hv
    | none => exact lookup_dictMerge_of_none _ _ _ hv

/-- Witness for C4's async part at concrete inputs. -/
theorem C4_explicit_headers_replace_or_merge_witness :
    ((AsyncHttpClient.mk (some "k") "https://api.example.com" "1.0").get "/v1/scrape"
        (some [("X", "1")])).sentHeaders =
      dictMerge ((AsyncHttpClient.mk (some "k") "https://api.example.com" "1.0").headers_fn
        "/v1/scrape" none) [("X", "1")] ∧
    lookup (dictMerge ((AsyncHttpClient.mk (some "k") "https://api.example.com" "1.0").headers_fn
        "/v1/scrape" none) [("X", "1")]) "X" = some "1" :=
  ⟨((C4_explicit_headers_replace_or_merge.2 (AsyncHttpClient.mk (some "k")
      "https://api.example.com" "1.0") "/v1/scrape" [] [("X", "1")] "X" (by decide)).1).2.1,
   by
    have := (C4_explicit_headers_replace_or_merge.2 (AsyncHttpClient.mk (some "k")
      "https://api.example.com" "1.0") "/v1/scrape" [] [("X", "1")] "X" (by decide)).2
    rw [this]
    decide⟩

/-- Counterexample to C4 as stated: an async GET with explicit headers
`[("X", "1")]` on a same-host endpoint with a non-empty credential
sends the built Authorization header as well — the headers sent are not
exactly the caller-supplied mapping. -/
theorem C4_explicit_headers_replace_or_merge_counterexample :
    ((AsyncHttpClient.mk (some "k") "https://api.example.com" "1.0").get "/v1/scrape"
        (some [("X", "1")])).sentHeaders = [("Authorization", "Bearer k"), ("X", "1")] ∧
    ([("Authorization", "Bearer k"), ("X", "1")] : List (String × String)) ≠ [("X", "1")] := by
  refine ⟨by decide, by decide⟩

/-! ### Claims C8, C9: POST body augmentation and mutation -/

/-- C8: every POST of either variant sends a body whose `origin` key
holds `"python-sdk@" + version`, overwriting any caller-supplied
`origin` and leaving every other key unchanged; GET and DELETE never
send a body at all. -/
theorem C8_post_body_origin :
    (∀ (c : HttpClient) (e : String) (d : List (String × PyVal))
        (h : Option (List (String × String))) (tr : Nat → TransportOutcome)
        (r : Int) (bf : ℚ),
        lookup (c.post e d h tr r bf).sentBody "origin" =
          some (.str ("python-sdk@" ++ c.version)) ∧
        (∀ k, k ≠ "origin" → lookup (c.post e d h tr r bf).sentBody k = lookup d k) ∧
        (c.get e h tr r bf).sentBody = none ∧
        (c.delete e h tr r bf).sentBody = none) ∧
    (∀ (c : AsyncHttpClient) (e : String) (d : List (String × PyVal))
        (h : Option (List (String × String))),
        lookup (c.post e d h).sentBody "origin" =
          some (.str ("python-sdk@" ++ c.version)) ∧
        (∀ k, k ≠ "origin" → lookup (c.post e d h).sentBody k = lookup d k) ∧
        (c.get e h).sentBody = none ∧
        (c.delete e h).sentBody = none) := by
  constructor
  · intro c e d h tr r bf
    have hb : (c.post e d h tr r bf).sentBody =
        setKey d "origin" (.str ("python-sdk@" ++ c.version)) := by
      cases hu : c.build_url e <;> simp [HttpClient.post, hu]
    refine ⟨?_, ?_, ?_, ?_⟩
    · rw [hb, lookup_setKey_self]
    · intro k hk
      rw [hb, lookup_setKey_ne _ _ _ _ hk]
    · cases hu : c.build_url e <;> simp [HttpClient.get, hu]
    · cases hu : c.build_url e <;> simp [HttpClient.delete, hu]
  · intro c e d h
    refine ⟨lookup_setKey_self _ _ _, fun k hk => lookup_setKey_ne _ _ _ _ hk, rfl, rfl⟩

/-- Witness for C8 at concrete inputs: the POST body carries the
injected origin and keeps the caller's other keys. -/
theorem C8_post_body_origin_witness :
    lookup (((HttpClient.mk (some "k") "https://api.example.com" "1.0").post "/v1/scrape"
        [("a", .str "b"), ("origin", .str "me")] none (fun _ => .response 200) 3
        (1/2 : ℚ)).sentBody) "origin" = some (.str "python-sdk@1.0") ∧
    ("a" : String) ≠ "origin" ∧
    lookup (((HttpClient.mk (some "k") "https://api.example.com" "1.0").post "/v1/scrape"
        [("a", .str "b"), ("origin", .str "me")] none (fun _ => .response 200) 3
        (1/2 : ℚ)).sentBody) "a" = lookup [("a", PyVal.str "b"), ("origin", PyVal.str "me")] "a" :=
  ⟨(C8_post_body_origin.1 (HttpClient.mk (some "k") "https://api.example.com" "1.0")
      "/v1/scrape" [("a", .str "b"), ("origin", .str "me")] none (fun _ => .response 200) 3
      (1/2 : ℚ)).1,
   by decide,
   (C8_post_body_origin.1 (HttpClient.mk (some "k") "https://api.example.com" "1.0")
      "/v1/scrape" [("a", .str "b"), ("origin", .str "me")] none (fun _ => .response 200) 3
      (1/2 : ℚ)).2.1 "a" (by decide)⟩

/-- C9: the blocking POST mutates the caller's body mapping in place —
after the call the caller's dict holds the injected (or overwritten)
`origin` key — whereas the async POST copies the body first and leaves
the caller's mapping untouched; at a concrete input the blocking
caller's dict is observably changed. -/
theorem C9_blocking_mutates_async_copies :
    (∀ (c : HttpClient) (e : String) (d : List (String × PyVal))
        (h : Option (List (String × String))) (tr : Nat → TransportOutcome)
        (r : Int) (bf : ℚ),
        (c.post e d h tr r bf).callerBody =
          setKey d "origin" (.str ("python-sdk@" ++ c.version))) ∧
    (∀ (c : AsyncHttpClient) (e : String) (d : List (String × PyVal))
        (h : Option (List (String × String))),
        (c.post e d h).callerBody = d) ∧
    ((HttpClient.mk (some "k") "https://api.example.com" "1.0").post "/v1/scrape"
        [("a", .str "b")] none (fun _ => .response 200) 3 (1/2 : ℚ)).callerBody ≠
      [("a", .str "b")] ∧
    ((AsyncHttpClient.mk (some "k") "https://api.example.com" "1.0").post "/v1/scrape"
        [("a", .str "b")] none).callerBody = [("a", .str "b")] := by
  refine ⟨?_, fun c e d h => rfl, by decide, by decide⟩
  intro c e d h tr r bf
  cases hu : c.build_url e <;> simp [HttpClient.post, hu]

/-! ### Claim C7: the URL resolver algorithm -/

/-- C7: `_build_url` follows the three-step algorithm: an endpoint
parsing with an explicit network-location contributes only its path
(defaulting to `/`) and query, emitted with the base URL's scheme
(defaulting to `https`) and netloc; a residual protocol-relative
endpoint is treated the same after parsing its authority via an
`https:` prefix; any other endpoint is resolved by relative-URL
resolution (`urljoin`) against the base URL normalised to end in `/`;
and concretely
`resolve("https://api.example.com/", "https://evil.com/x?y=1") =
"https://api.example.com/x?y=1"`. -/
theorem C7_build_url_three_step :
    (∀ (c : HttpClient) (e : String) (base ep : ParseResult),
        py_urlparseE c.api_url = .ok base → py_urlparseE e = .ok ep → ep.netloc ≠ "" →
        c.build_url e = .ok (urlunparse (if base.scheme = "" then "https" else base.scheme)
          base.netloc (if ep.path = "" then "/" else ep.path) "" ep.query "")) ∧
    (∀ (c : HttpClient) (e : String) (base ep ep2 : ParseResult),
        py_urlparseE c.api_url = .ok base → py_urlparseE e = .ok ep → ep.netloc = "" →
        firstTwoSlash e = true → py_urlparseE ("https:" ++ e) = .ok ep2 →
        c.build_url e = .ok (urlunparse (if base.scheme = "" then "https" else base.scheme)
          base.netloc (if ep2.path = "" then "/" else ep2.path) "" ep2.query "")) ∧
    (∀ (c : HttpClient) (e : String) (base ep : ParseResult),
        py_urlparseE c.api_url = .ok base → py_urlparseE e = .ok ep → ep.netloc = "" →
        firstTwoSlash e = false →
        c.build_url e =
          urljoinE (if endsWithSlash c.api_url then c.api_url else c.api_url ++ "/") e) ∧
    (HttpClient.mk none "https://api.example.com/" "1.0").build_url "https://evil.com/x?y=1" =
      .ok "https://api.example.com/x?y=1" := by
  refine ⟨?_, ?_, ?_, by decide⟩
  · intro c e base ep hb he hn
    simp only [HttpClient.build_url, hb, he, Except.bind, Bind.bind, if_pos hn, ite_self]
    split <;> rfl
  · intro c e base ep ep2 hb he hn h2 h3
    simp only [HttpClient.build_url, hb, he, h3, Except.bind, Bind.bind, hn, h2]
    rfl
  · intro c e base ep hb he hn h2
    simp only [HttpClient.build_url, hb, he, h2, Except.bind, Bind.bind, hn]
    rfl

/-- Witness for C7 at concrete inputs: the foreign-host endpoint keeps
only path and query; a relative endpoint goes through `urljoin`. -/
theorem C7_build_url_three_step_witness :
    (HttpClient.mk (some "k") "https://api.example.com" "1.0").build_url "https://evil.com/x?y=1" =
      .ok (urlunparse "https" "api.example.com" "/x" "" "y=1" "") ∧
    (HttpClient.mk (some "k") "https://api.example.com" "1.0").build_url "v1/scrape" =
      urljoinE "https://api.example.com/" "v1/scrape" :=
  ⟨C7_build_url_three_step.1 (HttpClient.mk (some "k") "https://api.example.com" "1.0")
      "https://evil.com/x?y=1" ⟨"https", "api.example.com", "", "", "", ""⟩
      ⟨"https", "evil.com", "/x", "", "y=1", ""⟩ (by decide) (by decide) (by decide),
   C7_build_url_three_step.2.2.1 (HttpClient.mk (some "k") "https://api.example.com" "1.0")
      "v1/scrape" ⟨"https", "api.example.com", "", "", "", ""⟩
      ⟨"", "", "v1/scrape", "", "", ""⟩ (by decide) (by decide) (by decide) (by decide)⟩

/-! ### Claim C1: the dispatch URL is forced to the base origin -/

/-- C1 (amended): for every endpoint that is relative (no scheme),
protocol-relative, or carries an explicit network-location, the URL the
blocking `HttpClient.post`/`get`/`delete` hand to the transport has the
configured base URL's scheme and authority — a foreign host in the
endpoint contributes only its path and query.  The suspending
`AsyncHttpClient` does not share this property: it dispatches absolute
endpoints to the host they name (see the counterexample), relying on
the credential gate rather than URL forcing. -/
theorem C1_blocking_url_forced_to_base :
    ∀ (c : HttpClient) (sch n t e : String) (ep : ParseResult),
      c.api_url = sch ++ "://" ++ n ++ t →
      (sch = "http" ∨ sch = "https") →
      n ≠ "" →
      (∀ ch ∈ n.data, goodNetlocChar ch = true) →
      tailOk t →
      (∀ ch ∈ t.data, nfChar ch = true) →
      py_urlparseE e = .ok ep →
      (ep.netloc ≠ "" ∨ firstTwoSlash e = true ∨ ep.scheme = "") →
      ∃ u, c.build_url e = .ok u ∧ forcedToBase sch n u ∧
        (∀ d h tr r bf, (c.post e d h tr r bf).urlResult = .ok u) ∧
        (∀ h tr r bf, (c.get e h tr r bf).urlResult = .ok u ∧
          (c.delete e h tr r bf).urlResult = .ok u) := by
  intro c sch n t e ep hurl hs hn hnc ht htn hep hclass
  have hs' : ¬(sch = "") := by rcases hs with rfl | rfl <;> decide
  obtain ⟨bp, bpr, bq, bf0, hbase⟩ := py_urlparseE_shape sch n t hs hnc ht htn
  have hb2 : py_urlparseE c.api_url = .ok ⟨sch, n, bp, bpr, bq, bf0⟩ := by
    rw [hurl]
    exact hbase
  have core : ∃ u, c.build_url e = .ok u ∧ forcedToBase sch n u := by
    unfold HttpClient.build_url
    rw [hb2, hep]
    simp only [Except.bind, Bind.bind]
    by_cases hepn : ep.netloc ≠ ""
    · rw [if_pos hepn]
      split
      · exact ⟨_, rfl, urlunparse_forced sch n _ _ _ _ hs' hn⟩
      · exact ⟨_, rfl, urlunparse_forced sch n _ _ _ _ hs' hn⟩
    · rw [if_neg hepn]
      by_cases h2 : firstTwoSlash e = true
      · rw [if_pos h2, py_urlparseE_https_prefix e ep h2 hep]
        simp only [Except.bind, Bind.bind]
        refine ⟨_, rfl, ?_⟩
        rw [if_neg hs']
        exact urlunparse_forced sch n _ _ _ _ hs' hn
      · rw [if_neg h2]
        have hsch : ep.scheme = "" := by
          rcases hclass with hc | hc | hc
          · exact absurd hc hepn
          · exact absurd hc h2
          · exact hc
        have hnet : ep.netloc = "" := not_not.mp hepn
        by_cases hsl : endsWithSlash c.api_url = true
        · rw [if_pos hsl]
          exact urljoinE_forced c.api_url e sch n ⟨sch, n, bp, bpr, bq, bf0⟩ ep hs hn hb2
            rfl rfl ⟨t, hurl, ht⟩ hep hsch hnet
        · rw [if_neg hsl]
          have hshape : c.api_url ++ "/" = sch ++ "://" ++ n ++ (t ++ "/") := by
            rw [hurl, String.append_assoc (sch ++ "://" ++ n) t "/"]
          have ht' : tailOk (t ++ "/") := by
            cases hd : t.data with
            | nil =>
              have hte : t = "" := string_ext (by rw [hd])
              right; left
              rw [hte]
              rfl
            | cons a l =>
              have hhead : (t ++ "/").data.head? = some a := by
                rw [String.data_append, hd]
                rfl
              rcases ht with h | h | h | h
              · subst h
                simp at hd
              · rw [hd] at h
                simp only [List.head?_cons, Option.some.injEq] at h
                subst h
                right; left
                exact hhead
              · rw [hd] at h
                simp only [List.head?_cons, Option.some.injEq] at h
                subst h
                right; right; left
                exact hhead
              · rw [hd] at h
                simp only [List.head?_cons, Option.some.injEq] at h
                subst h
                right; right; right
                exact hhead
          have htn' : ∀ ch ∈ (t ++ "/").data, nfChar ch = true := by
            intro ch hch
            rw [String.data_append] at hch
            rcases List.mem_append.mp hch with hch | hch
            · exact htn ch hch
            · simp only [List.mem_singleton] at hch
              subst hch
              decide
          obtain ⟨bp2, bpr2, bq2, bf2, hbase2⟩ := py_urlparseE_shape sch n (t ++ "/") hs hnc ht' htn'
          have hb3 : py_urlparseE (c.api_url ++ "/") = .ok ⟨sch, n, bp2, bpr2, bq2, bf2⟩ := by
            rw [hshape]
            exact hbase2
          exact urljoinE_forced (c.api_url ++ "/") e sch n ⟨sch, n, bp2, bpr2, bq2, bf2⟩ ep hs hn
            hb3 rfl rfl ⟨t ++ "/", hshape, ht'⟩ hep hsch hnet
  obtain ⟨u, hu, hforce⟩ := core
  refine ⟨u, hu, hforce, ?_, ?_⟩
  · intro d h tr r bf
    simp [HttpClient.post, hu]
  · intro h tr r bf
    constructor
    · simp [HttpClient.get, hu]
    · simp [HttpClient.delete, hu]

/-- Witness for C1 at concrete inputs: with base
`https://api.example.com` and the foreign-host endpoint
`https://evil.com/x?y=1`, the blocking client dispatches a URL of the
shape `https://api.example.com` + path/query tail. -/
theorem C1_blocking_url_forced_to_base_witness :
    ∃ u, (HttpClient.mk (some "k") "https://api.example.com" "1.0").build_url
        "https://evil.com/x?y=1" = .ok u ∧ forcedToBase "https" "api.example.com" u :=
  match C1_blocking_url_forced_to_base
    (HttpClient.mk (some "k") "https://api.example.com" "1.0") "https" "api.example.com" ""
    "https://evil.com/x?y=1" ⟨"https", "evil.com", "/x", "", "y=1", ""⟩
    rfl (Or.inr rfl) (by decide) (by decide) (Or.inl rfl) (by decide) (by decide)
    (Or.inl (by decide)) with
  | ⟨u, hu, hforce, _, _⟩ => ⟨u, hu, hforce⟩

/-- Counterexample to C1 as stated: the async executor passes the raw
endpoint to the transport with only httpx base-URL merging, so the
absolute endpoint `https://evil.com/x?y=1` is dispatched to host
`evil.com`, not to the base host. -/
theorem C1_async_dispatches_foreign_host :
    ((AsyncHttpClient.mk (some "k") "https://api.example.com" "1.0").post
        "https://evil.com/x?y=1" [] none).url = "https://evil.com/x?y=1" ∧
    (urlsplitE "https://evil.com/x?y=1").map SplitResult.netloc = .ok "evil.com" ∧
    ("evil.com" : String) ≠ "api.example.com" := by
  refine ⟨by decide, by decide, by decide⟩

end Firecrawl
